import Mathlib

/-!
Verification development for the RINEX epoch codec
(`src/rinex/src/epoch/mod.rs`): a shallow embedding of the timestamp
parser `parse_in_timescale`, the formatter `format`, the `now` fallback
and the surrounding error taxonomy, together with theorems settling the
specification claims about them.

Strings are embedded as `List Char`.  Machine integers are embedded as
`Nat`/`Int` with the overflow bounds of the Rust integer parsers made
explicit.  External facilities (the hifitime calendar library and the
sibling `flag`/`types` modules that are not part of the provided source)
are modelled by executable definitions that follow their documented
contracts; each such definition says so in its doc comment.
-/

namespace Rinex

/-- Character strings are embedded as lists of characters. -/
abbrev Str := List Char

/-- ASCII whitespace test, mirroring Rust `u8::is_ascii_whitespace`
(space, tab, line feed, form feed, carriage return). -/
def isWsChar (c : Char) : Bool :=
  c.toNat == 32 || c.toNat == 9 || c.toNat == 10 || c.toNat == 12 || c.toNat == 13

/-- Decimal digit value of a character, if it is one of the characters
an integer literal may contain. -/
def charDigit (c : Char) : Option Nat :=
  if 48 ≤ c.toNat && c.toNat ≤ 57 then some (c.toNat - 48) else none

/-- The decimal digit character for a value below ten. -/
def digitCharOf (d : Nat) : Char :=
  match d with
  | 0 => '0' | 1 => '1' | 2 => '2' | 3 => '3' | 4 => '4'
  | 5 => '5' | 6 => '6' | 7 => '7' | 8 => '8' | _ => '9'

/-- A character is a decimal digit when `charDigit` accepts it. -/
def isDigitCh (c : Char) : Bool := (charDigit c).isSome

theorem charDigit_digitCharOf (d : Nat) (hd : d ≤ 9) :
    charDigit (digitCharOf d) = some d := by
  interval_cases d <;> rfl

theorem isDigitCh_digitCharOf (d : Nat) : isDigitCh (digitCharOf d) = true := by
  match d with
  | 0 | 1 | 2 | 3 | 4 | 5 | 6 | 7 | 8 => rfl
  | n + 9 => rfl

theorem charDigit_toNat_range {c : Char} {d : Nat} (h : charDigit c = some d) :
    48 ≤ c.toNat ∧ c.toNat ≤ 57 := by
  unfold charDigit at h
  split at h
  · rename_i hcond
    simp only [Bool.and_eq_true, decide_eq_true_eq] at hcond
    exact hcond
  · exact absurd h (by simp)

theorem isDigitCh_toNat_range {c : Char} (h : isDigitCh c = true) :
    48 ≤ c.toNat ∧ c.toNat ≤ 57 := by
  unfold isDigitCh at h
  cases hc : charDigit c with
  | none => rw [hc] at h; exact absurd h (by simp [Option.isSome])
  | some d => exact charDigit_toNat_range hc

theorem isWsChar_of_digit {c : Char} (h : isDigitCh c = true) :
    isWsChar c = false := by
  obtain ⟨h1, h2⟩ := isDigitCh_toNat_range h
  unfold isWsChar
  simp only [Bool.or_eq_false_iff, beq_eq_false_iff_ne, ne_eq]
  omega

theorem digit_ne_of_toNat {c : Char} (n : Nat) (h : isDigitCh c = true)
    (hn : n < 48 ∨ 57 < n) : c.toNat ≠ n := by
  obtain ⟨h1, h2⟩ := isDigitCh_toNat_range h
  omega

theorem digit_ne_dot {c : Char} (h : isDigitCh c = true) : (c == '.') = false := by
  have := digit_ne_of_toNat 46 h (by omega)
  simp only [beq_eq_false_iff_ne, ne_eq]
  intro hc; exact this (by rw [hc]; rfl)

/-- Decimal rendering of a natural number, fuel-indexed so that it is
structurally recursive (evaluable by the kernel).  `renderNat` below
always supplies enough fuel. -/
def renderNatF : Nat → Nat → Str
  | 0, _ => []
  | f + 1, n =>
    if n < 10 then [digitCharOf n]
    else renderNatF f (n / 10) ++ [digitCharOf (n % 10)]

/-- Decimal rendering of a natural number, most significant digit
first; the embedding of what Rust `{}` prints for an unsigned value. -/
def renderNat (n : Nat) : Str := renderNatF (n + 1) n

theorem renderNatF_eq_of_fuel :
    ∀ f g n, n < f → n < g → renderNatF f n = renderNatF g n := by
  intro f
  induction f with
  | zero => intro g n h; omega
  | succ f ih =>
    intro g n hf hg
    match g with
    | 0 => omega
    | g + 1 =>
      unfold renderNatF
      by_cases h10 : n < 10
      · simp [h10]
      · simp only [h10, if_false]
        have hdiv : n / 10 < f := by omega
        have hdivg : n / 10 < g := by omega
        rw [ih g (n / 10) hdiv hdivg]

theorem renderNat_lt10 {n : Nat} (h : n < 10) : renderNat n = [digitCharOf n] := by
  simp [renderNat, renderNatF, h]

theorem renderNat_ge10 {n : Nat} (h : 10 ≤ n) :
    renderNat n = renderNat (n / 10) ++ [digitCharOf (n % 10)] := by
  have h1 : renderNat n = renderNatF n (n / 10) ++ [digitCharOf (n % 10)] := by
    simp [renderNat, renderNatF, Nat.not_lt.mpr h]
  rw [h1, renderNatF_eq_of_fuel n (n / 10 + 1) (n / 10) (by omega) (by omega)]
  rfl

theorem renderNat_ne_nil (n : Nat) : renderNat n ≠ [] := by
  by_cases h : n < 10
  · rw [renderNat_lt10 h]; simp
  · rw [renderNat_ge10 (by omega)]; simp

theorem renderNat_allDigits (n : Nat) : ∀ c ∈ renderNat n, isDigitCh c = true := by
  induction n using Nat.strong_induction_on with
  | _ n ih =>
    by_cases h : n < 10
    · rw [renderNat_lt10 h]
      intro c hc
      simp only [List.mem_singleton] at hc
      rw [hc]; exact isDigitCh_digitCharOf n
    · rw [renderNat_ge10 (by omega)]
      intro c hc
      rw [List.mem_append] at hc
      rcases hc with hc | hc
      · exact ih (n / 10) (by omega) c hc
      · simp only [List.mem_singleton] at hc
        rw [hc]; exact isDigitCh_digitCharOf (n % 10)

theorem renderNat_length_le (n k : Nat) (h : n < 10 ^ k) (hk : 1 ≤ k) :
    (renderNat n).length ≤ k := by
  induction k generalizing n with
  | zero => omega
  | succ k ih =>
    by_cases h10 : n < 10
    · rw [renderNat_lt10 h10]
      simp only [List.length_singleton]
      omega
    · rw [renderNat_ge10 (by omega)]
      have hk1 : 1 ≤ k := by
        by_contra hc
        have hk0 : k = 0 := by omega
        subst hk0
        norm_num at h
        omega
      have hlt : n / 10 < 10 ^ k := by
        rw [Nat.div_lt_iff_lt_mul (by norm_num : 0 < 10), ← pow_succ]
        exact h
      have := ih (n / 10) hlt hk1
      simp only [List.length_append, List.length_singleton]
      omega

/-- Positional accumulation of decimal digits, the core of the Rust
integer `from_str` implementations. -/
def parseDigitsGo : Str → Nat → Option Nat
  | [], acc => some acc
  | c :: rest, acc =>
    match charDigit c with
    | some d => parseDigitsGo rest (acc * 10 + d)
    | none => none

/-- Parse a nonempty all-digit string as a natural number. -/
def parseNatDigits (s : Str) : Option Nat :=
  match s with
  | [] => none
  | _ => parseDigitsGo s 0

theorem parseDigitsGo_append (a b : Str) (acc : Nat) :
    parseDigitsGo (a ++ b) acc =
      match parseDigitsGo a acc with
      | some acc2 => parseDigitsGo b acc2
      | none => none := by
  induction a generalizing acc with
  | nil => rfl
  | cons c rest ih =>
    simp only [List.cons_append, parseDigitsGo]
    cases charDigit c with
    | some d => exact ih (acc * 10 + d)
    | none => rfl

theorem parseDigitsGo_renderNat (n acc : Nat) :
    parseDigitsGo (renderNat n) acc = some (acc * 10 ^ (renderNat n).length + n) := by
  induction n using Nat.strong_induction_on generalizing acc with
  | _ n ih =>
    by_cases h : n < 10
    · rw [renderNat_lt10 h]
      simp [parseDigitsGo, charDigit_digitCharOf n (by omega)]
    · rw [renderNat_ge10 (by omega)]
      rw [parseDigitsGo_append]
      rw [ih (n / 10) (by omega) acc]
      simp only [parseDigitsGo, charDigit_digitCharOf (n % 10) (by omega)]
      simp only [List.length_append, List.length_singleton]
      have : acc * 10 ^ ((renderNat (n / 10)).length + 1)
          = (acc * 10 ^ (renderNat (n / 10)).length) * 10 := by ring
      rw [this]
      congr 1
      omega

theorem parseNatDigits_cons (c : Char) (rest : Str) :
    parseNatDigits (c :: rest) = parseDigitsGo (c :: rest) 0 := rfl

theorem parseNatDigits_of_ne_nil {s : Str} (h : s ≠ []) :
    parseNatDigits s = parseDigitsGo s 0 := by
  match s with
  | [] => exact absurd rfl h
  | c :: rest => rfl

theorem parseNatDigits_renderNat (n : Nat) :
    parseNatDigits (renderNat n) = some n := by
  rw [parseNatDigits_of_ne_nil (renderNat_ne_nil n), parseDigitsGo_renderNat n 0]
  simp

theorem parseDigitsGo_zeros (k : Nat) (s : Str) :
    parseDigitsGo (List.replicate k '0' ++ s) 0 = parseDigitsGo s 0 := by
  induction k with
  | zero => rfl
  | succ k ih =>
    simp only [List.replicate_succ, List.cons_append, parseDigitsGo]
    have : charDigit '0' = some 0 := rfl
    rw [this]
    simpa using ih

theorem parseNatDigits_zeros_renderNat (k n : Nat) :
    parseNatDigits (List.replicate k '0' ++ renderNat n) = some n := by
  have hne : List.replicate k '0' ++ renderNat n ≠ [] := by
    intro hc
    exact renderNat_ne_nil n (List.append_eq_nil.mp hc).2
  rw [parseNatDigits_of_ne_nil hne, parseDigitsGo_zeros, parseDigitsGo_renderNat n 0]
  simp

/-- Embedding of Rust `str::parse::<u8>`: an optional leading plus sign,
then a nonempty digit string; the accumulated value must fit in 8 bits. -/
def parseU8 (s : Str) : Option Nat :=
  match s with
  | [] => none
  | c :: rest =>
    if c = '+' then (parseNatDigits rest).bind (fun n => if n ≤ 255 then some n else none)
    else (parseNatDigits s).bind (fun n => if n ≤ 255 then some n else none)

/-- Embedding of Rust `str::parse::<u32>`: an optional leading plus
sign, then a nonempty digit string; the value must fit in 32 bits. -/
def parseU32 (s : Str) : Option Nat :=
  match s with
  | [] => none
  | c :: rest =>
    if c = '+' then (parseNatDigits rest).bind (fun n => if n ≤ 4294967295 then some n else none)
    else (parseNatDigits s).bind (fun n => if n ≤ 4294967295 then some n else none)

/-- Embedding of Rust `str::parse::<i32>`: an optional sign, then a
nonempty digit string; the value must fit in a signed 32-bit integer. -/
def parseI32 (s : Str) : Option Int :=
  match s with
  | [] => none
  | c :: rest =>
    if c = '-' then
      (parseNatDigits rest).bind (fun n => if n ≤ 2147483648 then some (-(n : Int)) else none)
    else if c = '+' then
      (parseNatDigits rest).bind (fun n => if n ≤ 2147483647 then some ((n : Int)) else none)
    else
      (parseNatDigits s).bind (fun n => if n ≤ 2147483647 then some ((n : Int)) else none)

theorem head_digit_of_parseNatDigits {c : Char} {rest : Str} {v : Nat}
    (h : parseNatDigits (c :: rest) = some v) : isDigitCh c = true := by
  rw [parseNatDigits_cons] at h
  unfold parseDigitsGo at h
  unfold isDigitCh
  cases hc : charDigit c with
  | none => rw [hc] at h; exact absurd h (by simp)
  | some d => simp [hc]

theorem digit_head_ne_sign {c : Char} (h : isDigitCh c = true) :
    c ≠ '+' ∧ c ≠ '-' := by
  constructor
  · intro hc
    exact digit_ne_of_toNat 43 h (by omega) (by rw [hc]; rfl)
  · intro hc
    exact digit_ne_of_toNat 45 h (by omega) (by rw [hc]; rfl)

theorem parseU8_of_digits {s : Str} {v : Nat} (h : parseNatDigits s = some v)
    (hv : v ≤ 255) : parseU8 s = some v := by
  match s with
  | [] => simp [parseNatDigits] at h
  | c :: rest =>
    have hd := head_digit_of_parseNatDigits h
    have hsgn := digit_head_ne_sign hd
    show (if c = '+' then (parseNatDigits rest).bind (fun n => if n ≤ 255 then some n else none)
          else (parseNatDigits (c :: rest)).bind (fun n => if n ≤ 255 then some n else none))
        = some v
    rw [if_neg hsgn.1, h]
    simp [hv]

theorem parseU32_of_digits {s : Str} {v : Nat} (h : parseNatDigits s = some v)
    (hv : v ≤ 4294967295) : parseU32 s = some v := by
  match s with
  | [] => simp [parseNatDigits] at h
  | c :: rest =>
    have hd := head_digit_of_parseNatDigits h
    have hsgn := digit_head_ne_sign hd
    show (if c = '+' then (parseNatDigits rest).bind (fun n => if n ≤ 4294967295 then some n else none)
          else (parseNatDigits (c :: rest)).bind (fun n => if n ≤ 4294967295 then some n else none))
        = some v
    rw [if_neg hsgn.1, h]
    simp [hv]

theorem parseI32_of_digits {s : Str} {v : Nat} (h : parseNatDigits s = some v)
    (hv : v ≤ 2147483647) : parseI32 s = some (v : Int) := by
  match s with
  | [] => simp [parseNatDigits] at h
  | c :: rest =>
    have hd := head_digit_of_parseNatDigits h
    have hsgn := digit_head_ne_sign hd
    show (if c = '-' then
            (parseNatDigits rest).bind (fun n => if n ≤ 2147483648 then some (-(n : Int)) else none)
          else if c = '+' then
            (parseNatDigits rest).bind (fun n => if n ≤ 2147483647 then some ((n : Int)) else none)
          else
            (parseNatDigits (c :: rest)).bind (fun n => if n ≤ 2147483647 then some ((n : Int)) else none))
        = some (v : Int)
    rw [if_neg hsgn.2, if_neg hsgn.1, h]
    simp [hv]

/-- Whitespace tokenization, fuel-indexed to be structurally recursive;
the embedding of Rust `str::split_ascii_whitespace` (empty tokens never
appear, leading/trailing/repeated whitespace is skipped). -/
def splitWsF : Nat → Str → List Str
  | 0, _ => []
  | fuel + 1, s =>
    match s.dropWhile isWsChar with
    | [] => []
    | c :: rest =>
      (c :: rest.takeWhile (fun x => !(isWsChar x)))
        :: splitWsF fuel (rest.dropWhile (fun x => !(isWsChar x)))

/-- Whitespace tokenization of a string, mirroring
`content.split_ascii_whitespace()` in the source. -/
def splitWs (s : Str) : List Str := splitWsF s.length s

theorem length_dropWhile_le_self (p : Char → Bool) :
    ∀ l : Str, (l.dropWhile p).length ≤ l.length := by
  intro l
  induction l with
  | nil => simp
  | cons c rest ih =>
    rw [List.dropWhile_cons]
    by_cases hp : p c = true
    · simp only [hp, if_true]
      simp only [List.length_cons]
      omega
    · rw [Bool.not_eq_true] at hp
      simp only [hp]
      simp

/-- One-step unfolding of the tokenizer at positive fuel. -/
theorem splitWsF_succ (fuel : Nat) (s : Str) :
    splitWsF (fuel + 1) s =
      match s.dropWhile isWsChar with
      | [] => []
      | c :: rest =>
        (c :: rest.takeWhile (fun x => !(isWsChar x)))
          :: splitWsF fuel (rest.dropWhile (fun x => !(isWsChar x))) := rfl

theorem splitWsF_eq_of_fuel :
    ∀ f g s, s.length ≤ f → s.length ≤ g → splitWsF f s = splitWsF g s := by
  intro f
  induction f with
  | zero =>
    intro g s hf hg
    have : s = [] := List.length_eq_zero.mp (by omega)
    subst this
    match g with
    | 0 => rfl
    | g + 1 => rfl
  | succ f ih =>
    intro g s hf hg
    match g with
    | 0 =>
      have : s = [] := List.length_eq_zero.mp (by omega)
      subst this
      rfl
    | g + 1 =>
      rw [splitWsF_succ f s, splitWsF_succ g s]
      cases hds : s.dropWhile isWsChar with
      | nil => rfl
      | cons c rest =>
        have hlen1 : (s.dropWhile isWsChar).length ≤ s.length := length_dropWhile_le_self _ _
        rw [hds] at hlen1
        simp only [List.length_cons] at hlen1
        have hlen2 : (rest.dropWhile (fun x => !(isWsChar x))).length ≤ rest.length :=
          length_dropWhile_le_self _ _
        exact congrArg _ (ih g (rest.dropWhile (fun x => !(isWsChar x))) (by omega) (by omega))

theorem splitWs_eq_fuel (f : Nat) (s : Str) (h : s.length ≤ f) :
    splitWs s = splitWsF f s :=
  splitWsF_eq_of_fuel s.length f s (le_refl _) h

theorem dropWhile_all {p : Char → Bool} :
    ∀ (w : Str), (∀ c ∈ w, p c = true) → ∀ s, (w ++ s).dropWhile p = s.dropWhile p := by
  intro w
  induction w with
  | nil => intro _ s; rfl
  | cons c rest ih =>
    intro hall s
    have hc : p c = true := hall c (by simp)
    simp only [List.cons_append, List.dropWhile_cons, hc, if_true]
    exact ih (fun x hx => hall x (by simp [hx])) s

theorem splitWs_ws_skip (w s : Str) (hw : ∀ c ∈ w, isWsChar c = true) :
    splitWs (w ++ s) = splitWs s := by
  rw [splitWs_eq_fuel ((w ++ s).length + 1) (w ++ s) (by omega),
      splitWs_eq_fuel ((w ++ s).length + 1) s
        (by simp only [List.length_append]; omega),
      splitWsF_succ, splitWsF_succ, dropWhile_all w hw s]

theorem takeWhile_append_of_all {p : Char → Bool} :
    ∀ (a : Str), (∀ c ∈ a, p c = true) →
      ∀ s, (s = [] ∨ ∃ c rest, s = c :: rest ∧ p c = false) →
        (a ++ s).takeWhile p = a ∧ (a ++ s).dropWhile p = s := by
  intro a
  induction a with
  | nil =>
    intro _ s hs
    rcases hs with rfl | ⟨c, rest, rfl, hc⟩
    · exact ⟨rfl, rfl⟩
    · simp [List.takeWhile_cons, List.dropWhile_cons, hc]
  | cons c rest ih =>
    intro hall s hs
    have hc : p c = true := hall c (by simp)
    have := ih (fun x hx => hall x (by simp [hx])) s hs
    simp only [List.cons_append, List.takeWhile_cons, List.dropWhile_cons, hc, if_true]
    exact ⟨by rw [this.1], this.2⟩

/-- The shape hypothesis for a string following a token: either the
string ends or whitespace comes next. -/
def wsBoundary (s : Str) : Prop :=
  s = [] ∨ ∃ c rest, s = c :: rest ∧ isWsChar c = true

theorem splitWs_token_head (tok s : Str) (hne : tok ≠ [])
    (htok : ∀ c ∈ tok, isWsChar c = false) (hs : wsBoundary s) :
    splitWs (tok ++ s) = tok :: splitWs s := by
  match tok with
  | [] => exact absurd rfl hne
  | c :: rest =>
    rw [splitWs_eq_fuel ((c :: rest ++ s).length + 1) _ (by omega), splitWsF_succ]
    have hc : isWsChar c = false := htok c (by simp)
    have hdrop : ((c :: rest) ++ s).dropWhile isWsChar = (c :: rest) ++ s := by
      simp [List.dropWhile_cons, hc]
    rw [hdrop]
    simp only [List.cons_append]
    have hshape : s = [] ∨ ∃ d r2, s = d :: r2 ∧ (!(isWsChar d)) = false := by
      rcases hs with rfl | ⟨d, r2, rfl, hd⟩
      · exact Or.inl rfl
      · exact Or.inr ⟨d, r2, rfl, by simp [hd]⟩
    have htd := takeWhile_append_of_all (p := fun x => !(isWsChar x)) rest
      (fun x hx => by simp [htok x (by simp [hx])]) s hshape
    rw [htd.1, htd.2]
    congr 1
    exact (splitWs_eq_fuel _ s (by simp only [List.length_append, List.length_cons]; omega)).symm

/-- Alternating whitespace/token runs, used to put formatter output in
a canonical shape for tokenization. -/
def chunksJoin : List (Str × Str) → Str
  | [] => []
  | (w, t) :: rest => w ++ (t ++ chunksJoin rest)

theorem splitWs_chunksJoin :
    ∀ l : List (Str × Str),
      (∀ p ∈ l, (∀ c ∈ p.1, isWsChar c = true) ∧ p.2 ≠ [] ∧ ∀ c ∈ p.2, isWsChar c = false) →
      (∀ p ∈ l.tail, p.1 ≠ []) →
      splitWs (chunksJoin l) = l.map Prod.snd := by
  intro l
  induction l with
  | nil => intro _ _; rfl
  | cons p rest ih =>
    intro hall htail
    obtain ⟨w, t⟩ := p
    obtain ⟨hw, htne, htnw⟩ := hall (w, t) (by simp)
    show splitWs (w ++ (t ++ chunksJoin rest)) = t :: rest.map Prod.snd
    rw [splitWs_ws_skip w _ hw]
    have hbnd : wsBoundary (chunksJoin rest) := by
      match rest with
      | [] => exact Or.inl rfl
      | (w2, t2) :: r2 =>
        have hw2ne : w2 ≠ [] := htail (w2, t2) (by simp)
        have hw2ws : ∀ c ∈ w2, isWsChar c = true := (hall (w2, t2) (by simp)).1
        match w2 with
        | [] => exact absurd rfl hw2ne
        | c :: wr =>
          exact Or.inr ⟨c, wr ++ (t2 ++ chunksJoin r2), by simp [chunksJoin],
            hw2ws c (by simp)⟩
    rw [splitWs_token_head t _ htne htnw hbnd]
    congr 1
    exact ih (fun q hq => hall q (List.mem_cons_of_mem _ hq))
      (fun q hq => htail q (List.mem_of_mem_tail hq))

/-- ASCII trim of both ends, the embedding of Rust `str::trim` as it
applies to the ASCII tokens this codec handles. -/
def trimAscii (s : Str) : Str :=
  ((s.dropWhile isWsChar).reverse.dropWhile isWsChar).reverse

theorem dropWhile_eq_self_of_head {s : Str} {p : Char → Bool}
    (h : ∀ c ∈ s, p c = false) : s.dropWhile p = s := by
  match s with
  | [] => rfl
  | c :: rest => simp [List.dropWhile_cons, h c (by simp)]

theorem trimAscii_of_nonWs {s : Str} (h : ∀ c ∈ s, isWsChar c = false) :
    trimAscii s = s := by
  unfold trimAscii
  rw [dropWhile_eq_self_of_head h]
  rw [dropWhile_eq_self_of_head (fun c hc => h c (List.mem_reverse.mp hc))]
  exact List.reverse_reverse s

/-- Model of the external `hifitime::TimeScale` enumeration, restricted
to the variants this codec distinguishes; `TAI` stands for any variant
hit by the wildcard arms of the source. -/
inductive TimeScale
  | UTC | GPST | GST | BDT | TAI
  deriving DecidableEq, Repr

/-- Display name of a time scale, as interpolated by `{}` into the
calendar string of `parse_in_timescale` (hifitime display contract). -/
def scaleName : TimeScale → Str
  | .UTC => ['U', 'T', 'C']
  | .GPST => ['G', 'P', 'S', 'T']
  | .GST => ['G', 'S', 'T']
  | .BDT => ['B', 'D', 'T']
  | .TAI => ['T', 'A', 'I']

/-- Model of `crate::types::Type` (the record-kind tag; the module
itself is outside the provided source).  `Other` stands for every
variant hit by the wildcard arm of `format`. -/
inductive RecordType
  | ObservationData | NavigationData | IonosphereMaps | Other
  deriving DecidableEq, Repr

/-- Modelled from the spec: the epoch flag enumeration of the sibling
`flag` module (file `flag.rs` is not under the provided source); a
closed set of event-status codes with numeric tokens 0 through 6 and
default `Ok`. -/
inductive EpochFlag
  | Ok | PowerFailure | AntennaBeingMoved | NewSiteOccupation
  | HeaderInformationFollows | ExternalEvent | CycleSlip
  deriving DecidableEq, Repr

instance : Inhabited EpochFlag := ⟨EpochFlag.Ok⟩

/-- Modelled from the spec: the flag codec parse direction; accepts the
literal integers 0 through 6 and fails on anything else. -/
def flagFromStr (s : Str) : Option EpochFlag :=
  match parseU8 s with
  | some 0 => some .Ok
  | some 1 => some .PowerFailure
  | some 2 => some .AntennaBeingMoved
  | some 3 => some .NewSiteOccupation
  | some 4 => some .HeaderInformationFollows
  | some 5 => some .ExternalEvent
  | some 6 => some .CycleSlip
  | _ => none

/-- Modelled from the spec: the flag codec display direction, a single
numeric character. -/
def flagStr : EpochFlag → Str
  | .Ok => ['0']
  | .PowerFailure => ['1']
  | .AntennaBeingMoved => ['2']
  | .NewSiteOccupation => ['3']
  | .HeaderInformationFollows => ['4']
  | .ExternalEvent => ['5']
  | .CycleSlip => ['6']

/-- The error taxonomy of the source (`ParsingError`), one constructor
per variant; payload strings carry the offending token. -/
inductive ParsingError
  | EpochFlag (tok : Str)
  | EpochError
  | FormatError
  | SecsNanosError
  | YearField (tok : Str)
  | MonthField (tok : Str)
  | DayField (tok : Str)
  | HoursField (tok : Str)
  | MinutesField (tok : Str)
  | SecondsField (tok : Str)
  | NanosecondsField (tok : Str)
  deriving DecidableEq, Repr

/-- Model of `hifitime::Epoch` over a civil-calendar component
representation: the six calendar components, the nanosecond count
within the second, and the time-scale tag. -/
structure Epoch where
  y : Int
  m : Nat
  d : Nat
  hh : Nat
  mm : Nat
  ss : Nat
  ns : Nat
  scale : TimeScale
  deriving DecidableEq, Repr

/-- Leap-year predicate of the proleptic Gregorian calendar. -/
def isLeapYear (y : Int) : Bool :=
  y % 4 == 0 && (y % 100 != 0 || y % 400 == 0)

/-- Number of days of a month in a given year. -/
def daysInMonth (y : Int) (m : Nat) : Nat :=
  match m with
  | 1 => 31
  | 2 => if isLeapYear y then 29 else 28
  | 3 => 31
  | 4 => 30
  | 5 => 31
  | 6 => 30
  | 7 => 31
  | 8 => 31
  | 9 => 30
  | 10 => 31
  | 11 => 30
  | 12 => 31
  | _ => 0

/-- Validity of Gregorian components, the acceptance condition of the
external hifitime constructors (month and day in range for the civil
calendar, time of day in range, sub-second below one second). -/
def isGregorianValid (y : Int) (m d hh mm ss ns : Nat) : Prop :=
  1 ≤ m ∧ m ≤ 12 ∧ 1 ≤ d ∧ d ≤ daysInMonth y m ∧ hh ≤ 23 ∧ mm ≤ 59 ∧ ss ≤ 59 ∧ ns ≤ 999999999

instance (y : Int) (m d hh mm ss ns : Nat) :
    Decidable (isGregorianValid y m d hh mm ss ns) := by
  unfold isGregorianValid
  exact inferInstance

/-- Model of `hifitime::Epoch::from_gregorian_utc`: builds a UTC-tagged
instant from civil components; `none` models the documented panic on an
invalid calendar date. -/
def fromGregorianUtc (y : Int) (m d hh mm ss ns : Nat) : Option Epoch :=
  if isGregorianValid y m d hh mm ss ns then some ⟨y, m, d, hh, mm, ss, ns, .UTC⟩ else none

/-- Model of `hifitime::Epoch::to_gregorian_utc`: decomposes an instant
into its civil components. -/
def toGregorianUtc (e : Epoch) : Int × Nat × Nat × Nat × Nat × Nat × Nat :=
  (e.y, e.m, e.d, e.hh, e.mm, e.ss, e.ns)

/-- Advance a civil date by a number of days (model of the external
calendar arithmetic, used when second-offset addition crosses
midnight). -/
def addDays : Int → Nat → Nat → Nat → Int × Nat × Nat
  | y, m, d, 0 => (y, m, d)
  | y, m, d, n + 1 =>
    if d < daysInMonth y m then addDays y m (d + 1) n
    else if m < 12 then addDays y (m + 1) 1 n
    else addDays (y + 1) 1 1 n

/-- Model of `epoch + Duration::from_seconds(k)` on the component
representation: add `k` seconds with carry through the civil
calendar. -/
def epochAddSeconds (k : Nat) (e : Epoch) : Epoch :=
  let t := e.ss + k
  let t2 := e.mm + t / 60
  let t3 := e.hh + t2 / 60
  let ymd := addDays e.y e.m e.d (t3 / 24)
  ⟨ymd.1, ymd.2.1, ymd.2.2, t3 % 24, t2 % 60, t % 60, e.ns, e.scale⟩

/-- Right-aligned zero padding of a digit string to a given width
(Rust `{:0w}` for the nonnegative case). -/
def padZeroDigits (w : Nat) (s : Str) : Str :=
  List.replicate (w - s.length) '0' ++ s

/-- Rust `{:0w}` formatting of a signed integer: the sign, when
present, counts toward the width and precedes the zeros. -/
def padIntZero (w : Nat) (i : Int) : Str :=
  if i < 0 then '-' :: padZeroDigits (w - 1) (renderNat i.natAbs)
  else padZeroDigits w (renderNat i.toNat)

/-- Rust `{:>w}` formatting of an unsigned integer: left space padding
to the width. -/
def padSpaceNat (w : Nat) (n : Nat) : Str :=
  List.replicate (w - (renderNat n).length) ' ' ++ renderNat n

/-- Rust `{:0w}` formatting of an unsigned integer. -/
def padNatZero (w : Nat) (n : Nat) : Str :=
  padZeroDigits w (renderNat n)

/-- The gregorian decomposition taken at the top of `format` (source
lines 47-52): GPST instants are shifted by 37 seconds, GST and BDT
instants by 19 seconds, anything else decomposes unshifted. -/
def formatDecompose (epoch : Epoch) : Int × Nat × Nat × Nat × Nat × Nat × Nat :=
  match epoch.scale with
  | .GPST => toGregorianUtc (epochAddSeconds 37 epoch)
  | .GST => toGregorianUtc (epochAddSeconds 19 epoch)
  | .BDT => toGregorianUtc (epochAddSeconds 19 epoch)
  | _ => toGregorianUtc epoch

/-- Embedding of `format` (source lines 45-128): renders an epoch plus
optional flag in the layout selected by record kind and revision. -/
def format (epoch : Epoch) (flag : Option EpochFlag) (t : RecordType) (revision : Nat) : Str :=
  match formatDecompose epoch with
  | (y, m, d, hh, mm, ss, nanos) =>
    match t with
    | .ObservationData =>
      if revision < 3 then
        let y1 := y - 2000
        let y2 := if y1 < 0 then y1 + 100 else y1
        padIntZero 2 y2 ++ [' '] ++ padSpaceNat 2 m ++ [' '] ++ padSpaceNat 2 d ++ [' ']
          ++ padSpaceNat 2 hh ++ [' '] ++ padSpaceNat 2 mm ++ [' '] ++ padSpaceNat 2 ss
          ++ ['.'] ++ padZeroDigits 7 (renderNat (nanos / 100)) ++ [' ', ' ']
          ++ flagStr (flag.getD .Ok)
      else
        padIntZero 4 y ++ [' '] ++ padNatZero 2 m ++ [' '] ++ padNatZero 2 d ++ [' ']
          ++ padNatZero 2 hh ++ [' '] ++ padNatZero 2 mm ++ [' '] ++ padSpaceNat 2 ss
          ++ ['.'] ++ padZeroDigits 7 (renderNat (nanos / 100)) ++ [' ', ' ']
          ++ flagStr (flag.getD .Ok)
    | .NavigationData =>
      if revision < 3 then
        let y1 := y - 2000
        let y2 := if y1 < 0 then y1 + 100 else y1
        padIntZero 2 y2 ++ [' '] ++ padSpaceNat 2 m ++ [' '] ++ padSpaceNat 2 d ++ [' ']
          ++ padSpaceNat 2 hh ++ [' '] ++ padSpaceNat 2 mm ++ [' '] ++ padSpaceNat 2 ss
          ++ ['.'] ++ padSpaceNat 1 (nanos / 100000000)
      else
        padIntZero 4 y ++ [' '] ++ padNatZero 2 m ++ [' '] ++ padNatZero 2 d ++ [' ']
          ++ padNatZero 2 hh ++ [' '] ++ padNatZero 2 mm ++ [' '] ++ padNatZero 2 ss
    | .IonosphereMaps =>
      padIntZero 4 y ++ [' ', ' ', ' '] ++ padSpaceNat 2 m ++ [' ', ' ', ' ', ' ']
        ++ padSpaceNat 2 d ++ [' ', ' ', ' ', ' '] ++ padSpaceNat 2 hh
        ++ [' ', ' ', ' ', ' '] ++ padSpaceNat 2 mm ++ [' ', ' ', ' ', ' ']
        ++ padSpaceNat 2 ss
    | .Other =>
      if revision < 3 then
        let y1 := y - 2000
        let y2 := if y1 < 0 then y1 + 100 else y1
        padIntZero 2 y2 ++ [' '] ++ padSpaceNat 2 m ++ [' '] ++ padSpaceNat 2 d ++ [' ']
          ++ padSpaceNat 2 hh ++ [' '] ++ padSpaceNat 2 mm ++ [' '] ++ padSpaceNat 2 ss
      else
        padIntZero 4 y ++ [' '] ++ padSpaceNat 2 m ++ [' '] ++ padSpaceNat 2 d ++ [' ']
          ++ padSpaceNat 2 hh ++ [' '] ++ padSpaceNat 2 mm ++ [' '] ++ padSpaceNat 2 ss

/-- The mutable component state of the parsing loop of
`parse_in_timescale`, with the initial values of source lines
137-144. -/
structure EpochFields where
  y : Int := 0
  m : Nat := 0
  d : Nat := 0
  hh : Nat := 0
  mm : Nat := 0
  ss : Nat := 0
  ns : Nat := 0
  flag : EpochFlag := .Ok
  deriving DecidableEq, Repr

/-- One arm of the `match field_index` dispatch in the parsing loop of
`parse_in_timescale` (source lines 146-214).  The nanosecond variable
is a `u32` in the source, so the `ns *= 100_000_000` and `ns *= 100`
scalings are 32-bit multiplications, reduced modulo 2^32 here. -/
def applyField (fs : EpochFields) (fieldIndex : Nat) (item : Str) : Except ParsingError EpochFields :=
  match fieldIndex with
  | 0 =>
    match parseI32 item with
    | none => .error (.YearField item)
    | some v => .ok {fs with y := if v < 100 then (if v < 80 then v + 2000 else v + 1900) else v}
  | 1 =>
    match parseU8 item with
    | none => .error (.MonthField item)
    | some v => .ok {fs with m := v}
  | 2 =>
    match parseU8 item with
    | none => .error (.DayField item)
    | some v => .ok {fs with d := v}
  | 3 =>
    match parseU8 item with
    | none => .error (.HoursField item)
    | some v => .ok {fs with hh := v}
  | 4 =>
    match parseU8 item with
    | none => .error (.MinutesField item)
    | some v => .ok {fs with mm := v}
  | 5 =>
    match item.dropWhile (fun c => !(c == '.')) with
    | [] =>
      match parseU8 (trimAscii item) with
      | none => .error (.SecondsField item)
      | some s => .ok {fs with ss := s}
    | _ :: frac =>
      match parseU8 (trimAscii (item.takeWhile (fun c => !(c == '.')))) with
      | none => .error (.SecondsField item)
      | some s =>
        match parseU32 (trimAscii frac) with
        | none => .error (.NanosecondsField item)
        | some f =>
          .ok {fs with ss := s,
                       ns := if (trimAscii item).length < 7
                             then (f * 100000000) % 4294967296
                             else (f * 100) % 4294967296}
  | 6 =>
    match flagFromStr (trimAscii item) with
    | none => .error (.EpochFlag (trimAscii item))
    | some fl => .ok {fs with flag := fl}
  | _ => .ok fs

/-- The indexed parsing loop of `parse_in_timescale`: fields are
applied in token order with early return on the first error. -/
def parseFieldsGo : Nat → List Str → EpochFields → Except ParsingError EpochFields
  | _, [], fs => .ok fs
  | idx, item :: rest, fs =>
    match applyField fs idx item with
    | .error e => .error e
    | .ok fs2 => parseFieldsGo (idx + 1) rest fs2

/-- Outcome of a call to `parse_in_timescale`: a value, a returned
typed error, or a panic inside an external constructor. -/
inductive ParseResult
  | ok (e : Epoch) (flag : EpochFlag)
  | failed (err : ParsingError)
  | panicked
  deriving DecidableEq, Repr

/-- The intermediate calendar string built for a non-UTC target scale
(source lines 237-247): note the stored nanosecond count is divided by
100,000,000 before being zero-padded to nine digits. -/
def civilString (y : Int) (m d hh mm ss ns : Nat) (ts : TimeScale) : Str :=
  padIntZero 4 y ++ ['-'] ++ padNatZero 2 m ++ ['-'] ++ padNatZero 2 d ++ ['T']
    ++ padNatZero 2 hh ++ [':'] ++ padNatZero 2 mm ++ [':'] ++ padNatZero 2 ss
    ++ ['.'] ++ padZeroDigits 9 (renderNat (ns / 100000000)) ++ [' '] ++ scaleName ts

/-- Split at every occurrence of a separator character, keeping empty
pieces (model of Rust `str::split`). -/
def splitOnChar (sep : Char) : Str → List Str
  | [] => [[]]
  | a :: rest =>
    match splitOnChar sep rest with
    | [] => [[]]
    | t :: ts => if a = sep then [] :: t :: ts else (a :: t) :: ts

/-- Recognize a time-scale display name. -/
def parseScaleName (s : Str) : Option TimeScale :=
  if s = scaleName .UTC then some .UTC
  else if s = scaleName .GPST then some .GPST
  else if s = scaleName .GST then some .GST
  else if s = scaleName .BDT then some .BDT
  else if s = scaleName .TAI then some .TAI
  else none

/-- Model of `hifitime::Epoch::from_str` on ISO-style calendar strings
with an explicit scale name: the civil components are read back and the
result is tagged with the named scale; a malformed string or invalid
date gives `none` (the library's parse error). -/
def hifitimeFromStr (s : Str) : Option Epoch :=
  match splitOnChar ' ' s with
  | [dt, scl] =>
    match parseScaleName scl with
    | none => none
    | some ts =>
      match splitOnChar 'T' dt with
      | [dpart, tpart] =>
        match splitOnChar '-' dpart with
        | [ys, ms, ds] =>
          match splitOnChar ':' tpart with
          | [hs, mins, secs] =>
            match splitOnChar '.' secs with
            | [ssStr, nsStr] =>
              if nsStr.length = 9 then
                match parseI32 ys, parseNatDigits ms, parseNatDigits ds, parseNatDigits hs,
                    parseNatDigits mins, parseNatDigits ssStr, parseNatDigits nsStr with
                | some y, some m, some d, some hh, some mm, some ss, some ns =>
                  if isGregorianValid y m d hh mm ss ns then some ⟨y, m, d, hh, mm, ss, ns, ts⟩
                  else none
                | _, _, _, _, _, _, _ => none
              else none
            | _ => none
          | _ => none
        | _ => none
      | _ => none
  | _ => none

/-- Embedding of `parse_in_timescale` (source lines 133-251): tokenize,
fill the component fields in order, then construct the instant in the
target time scale guarded by the year-zero structural check. -/
def parse_in_timescale (content : Str) (ts : TimeScale) : ParseResult :=
  match parseFieldsGo 0 (splitWs content) {} with
  | .error err => .failed err
  | .ok fs =>
    match ts with
    | .UTC =>
      if fs.y = 0 then .failed .FormatError
      else
        match fromGregorianUtc fs.y fs.m fs.d fs.hh fs.mm fs.ss fs.ns with
        | some e => .ok e fs.flag
        | none => .panicked
    | _ =>
      if fs.y = 0 then .failed .FormatError
      else
        match hifitimeFromStr (civilString fs.y fs.m fs.d fs.hh fs.mm fs.ss fs.ns ts) with
        | some e => .ok e fs.flag
        | none => .failed .EpochError

/-- Embedding of `parse_utc` (source lines 253-255). -/
def parse_utc (s : Str) : ParseResult :=
  parse_in_timescale s .UTC

/-- The sentinel instant substituted when the clock read fails:
midnight, 1 January 2000, UTC. -/
def midnight2000 : Epoch := ⟨2000, 1, 1, 0, 0, 0, 0, .UTC⟩

/-- Embedding of `now` (source lines 38-40); the fallible system clock
read is passed in as an argument. -/
def now (clockRead : Option Epoch) : Epoch :=
  clockRead.getD midnight2000

theorem padZeroDigits_length {w : Nat} {s : Str} (h : s.length ≤ w) :
    (padZeroDigits w s).length = w := by
  unfold padZeroDigits
  simp only [List.length_append, List.length_replicate]
  omega

theorem padZeroDigits_ne_nil (w : Nat) {s : Str} (h : s ≠ []) :
    padZeroDigits w s ≠ [] := by
  unfold padZeroDigits
  intro hc
  exact h (List.append_eq_nil.mp hc).2

theorem allDigits_padZeroDigits {w : Nat} {s : Str} (h : ∀ c ∈ s, isDigitCh c = true) :
    ∀ c ∈ padZeroDigits w s, isDigitCh c = true := by
  intro c hc
  unfold padZeroDigits at hc
  rw [List.mem_append] at hc
  rcases hc with hc | hc
  · rw [List.eq_of_mem_replicate hc]; rfl
  · exact h c hc

theorem nonWs_of_allDigits {s : Str} (h : ∀ c ∈ s, isDigitCh c = true) :
    ∀ c ∈ s, isWsChar c = false :=
  fun c hc => isWsChar_of_digit (h c hc)

theorem ws_of_replicate_space (k : Nat) :
    ∀ c ∈ List.replicate k ' ', isWsChar c = true := by
  intro c hc
  rw [List.eq_of_mem_replicate hc]
  rfl

theorem ws_of_space_cons_replicate (k : Nat) :
    ∀ c ∈ (' ' :: List.replicate k ' ' : Str), isWsChar c = true := by
  intro c hc
  rcases List.mem_cons.mp hc with rfl | hc
  · rfl
  · exact ws_of_replicate_space k c hc

theorem parseNatDigits_padZero_renderNat (w n : Nat) :
    parseNatDigits (padZeroDigits w (renderNat n)) = some n :=
  parseNatDigits_zeros_renderNat _ n

theorem parseNatDigits_padNatZero (w n : Nat) :
    parseNatDigits (padNatZero w n) = some n :=
  parseNatDigits_zeros_renderNat _ n

theorem padIntZero_of_nonneg {i : Int} (h : 0 ≤ i) (w : Nat) :
    padIntZero w i = padZeroDigits w (renderNat i.toNat) := by
  unfold padIntZero
  rw [if_neg (by omega)]

theorem parseI32_padIntZero {i : Int} (h : 0 ≤ i) (hbnd : i ≤ 2147483647) (w : Nat) :
    parseI32 (padIntZero w i) = some i := by
  rw [padIntZero_of_nonneg h w]
  have := parseI32_of_digits (parseNatDigits_padZero_renderNat w i.toNat) (by omega)
  rw [this, Int.toNat_of_nonneg h]

theorem parseU8_renderNat {n : Nat} (h : n ≤ 255) : parseU8 (renderNat n) = some n :=
  parseU8_of_digits (parseNatDigits_renderNat n) h

theorem parseU8_padNatZero {n : Nat} (h : n ≤ 255) (w : Nat) :
    parseU8 (padNatZero w n) = some n :=
  parseU8_of_digits (parseNatDigits_padNatZero w n) h

theorem parseU32_padZero_renderNat {n : Nat} (h : n ≤ 4294967295) (w : Nat) :
    parseU32 (padZeroDigits w (renderNat n)) = some n :=
  parseU32_of_digits (parseNatDigits_padZero_renderNat w n) h

theorem dropWhile_all_true {p : Char → Bool} :
    ∀ {s : Str}, (∀ c ∈ s, p c = true) → s.dropWhile p = [] := by
  intro s
  induction s with
  | nil => intro _; rfl
  | cons c rest ih =>
    intro h
    rw [List.dropWhile_cons, if_pos (h c (by simp))]
    exact ih (fun x hx => h x (by simp [hx]))

theorem not_dot_of_digit {c : Char} (h : isDigitCh c = true) : (!(c == '.')) = true := by
  rw [digit_ne_dot h]
  rfl

/-- Splitting a seconds token of the shape `digits.digits` at its dot. -/
theorem secondsTok_split {a b : Str} (ha : ∀ c ∈ a, isDigitCh c = true) :
    (a ++ '.' :: b).takeWhile (fun c => !(c == '.')) = a ∧
    (a ++ '.' :: b).dropWhile (fun c => !(c == '.')) = '.' :: b := by
  exact takeWhile_append_of_all a (fun c hc => not_dot_of_digit (ha c hc)) ('.' :: b)
    (Or.inr ⟨'.', b, rfl, by rfl⟩)

theorem dropWhile_dot_of_digits {s : Str} (h : ∀ c ∈ s, isDigitCh c = true) :
    s.dropWhile (fun c => !(c == '.')) = [] :=
  dropWhile_all_true (fun c hc => not_dot_of_digit (h c hc))

theorem nonWs_secondsTok {a b : Str} (ha : ∀ c ∈ a, isDigitCh c = true)
    (hb : ∀ c ∈ b, isDigitCh c = true) :
    ∀ c ∈ a ++ '.' :: b, isWsChar c = false := by
  intro c hc
  rw [List.mem_append] at hc
  rcases hc with hc | hc
  · exact isWsChar_of_digit (ha c hc)
  · rcases List.mem_cons.mp hc with rfl | hc
    · rfl
    · exact isWsChar_of_digit (hb c hc)

theorem flag_roundtrip (fl : EpochFlag) : flagFromStr (flagStr fl) = some fl := by
  cases fl <;> rfl

theorem flagStr_nonWs (fl : EpochFlag) : ∀ c ∈ flagStr fl, isWsChar c = false := by
  cases fl <;> (intro c hc; simp only [flagStr, List.mem_singleton] at hc; rw [hc]; rfl)

theorem flagStr_ne_nil (fl : EpochFlag) : flagStr fl ≠ [] := by
  cases fl <;> simp [flagStr]

theorem trimAscii_flagStr (fl : EpochFlag) : trimAscii (flagStr fl) = flagStr fl :=
  trimAscii_of_nonWs (flagStr_nonWs fl)

theorem parseFieldsGo_nil (idx : Nat) (fs : EpochFields) :
    parseFieldsGo idx [] fs = .ok fs := rfl

theorem parseFieldsGo_cons_ok {fs fs2 : EpochFields} {idx : Nat} {item : Str}
    (h : applyField fs idx item = .ok fs2) (rest : List Str) :
    parseFieldsGo idx (item :: rest) fs = parseFieldsGo (idx + 1) rest fs2 := by
  show (match applyField fs idx item with
        | .error e => (.error e : Except ParsingError EpochFields)
        | .ok fs2 => parseFieldsGo (idx + 1) rest fs2) = parseFieldsGo (idx + 1) rest fs2
  rw [h]

theorem parseFieldsGo_cons_err {fs : EpochFields} {idx : Nat} {item : Str} {e : ParsingError}
    (h : applyField fs idx item = .error e) (rest : List Str) :
    parseFieldsGo idx (item :: rest) fs = .error e := by
  unfold parseFieldsGo
  rw [h]

theorem applyField_year {fs : EpochFields} {item : Str} {v : Int}
    (h : parseI32 item = some v) :
    applyField fs 0 item =
      .ok {fs with y := if v < 100 then (if v < 80 then v + 2000 else v + 1900) else v} := by
  unfold applyField
  rw [h]

theorem applyField_month {fs : EpochFields} {item : Str} {v : Nat}
    (h : parseU8 item = some v) :
    applyField fs 1 item = .ok {fs with m := v} := by
  unfold applyField
  rw [h]

theorem applyField_day {fs : EpochFields} {item : Str} {v : Nat}
    (h : parseU8 item = some v) :
    applyField fs 2 item = .ok {fs with d := v} := by
  unfold applyField
  rw [h]

theorem applyField_hours {fs : EpochFields} {item : Str} {v : Nat}
    (h : parseU8 item = some v) :
    applyField fs 3 item = .ok {fs with hh := v} := by
  unfold applyField
  rw [h]

theorem applyField_minutes {fs : EpochFields} {item : Str} {v : Nat}
    (h : parseU8 item = some v) :
    applyField fs 4 item = .ok {fs with mm := v} := by
  unfold applyField
  rw [h]

theorem applyField_seconds_dot {fs : EpochFields} {item ip fr : Str} {s f : Nat}
    (htw : item.takeWhile (fun c => !(c == '.')) = ip)
    (hdw : item.dropWhile (fun c => !(c == '.')) = '.' :: fr)
    (hip : parseU8 (trimAscii ip) = some s)
    (hfr : parseU32 (trimAscii fr) = some f) :
    applyField fs 5 item =
      .ok {fs with ss := s,
                   ns := if (trimAscii item).length < 7
                         then (f * 100000000) % 4294967296
                         else (f * 100) % 4294967296} := by
  simp only [applyField, htw, hdw, hip, hfr]

theorem applyField_seconds_nodot {fs : EpochFields} {item : Str} {s : Nat}
    (hdw : item.dropWhile (fun c => !(c == '.')) = [])
    (h : parseU8 (trimAscii item) = some s) :
    applyField fs 5 item = .ok {fs with ss := s} := by
  unfold applyField
  rw [hdw, h]

theorem applyField_flag {fs : EpochFields} {item : Str} {fl : EpochFlag}
    (h : flagFromStr (trimAscii item) = some fl) :
    applyField fs 6 item = .ok {fs with flag := fl} := by
  unfold applyField
  rw [h]

theorem formatDecompose_utc {e : Epoch} (h : e.scale = .UTC) :
    formatDecompose e = (e.y, e.m, e.d, e.hh, e.mm, e.ss, e.ns) := by
  unfold formatDecompose
  rw [h]
  rfl

theorem tok_padZero_render (w n : Nat) :
    padZeroDigits w (renderNat n) ≠ [] ∧
      ∀ c ∈ padZeroDigits w (renderNat n), isWsChar c = false :=
  ⟨padZeroDigits_ne_nil w (renderNat_ne_nil n),
   nonWs_of_allDigits (allDigits_padZeroDigits (renderNat_allDigits n))⟩

theorem tok_render (n : Nat) :
    renderNat n ≠ [] ∧ ∀ c ∈ renderNat n, isWsChar c = false :=
  ⟨renderNat_ne_nil n, nonWs_of_allDigits (renderNat_allDigits n)⟩

theorem tok_secTok (s w f : Nat) :
    renderNat s ++ '.' :: padZeroDigits w (renderNat f) ≠ [] ∧
      ∀ c ∈ renderNat s ++ '.' :: padZeroDigits w (renderNat f), isWsChar c = false := by
  refine ⟨?_, nonWs_secondsTok (renderNat_allDigits s)
    (allDigits_padZeroDigits (renderNat_allDigits f))⟩
  intro hc
  exact renderNat_ne_nil s (List.append_eq_nil.mp hc).1

theorem ws_append {w1 w2 : Str} (h1 : ∀ c ∈ w1, isWsChar c = true)
    (h2 : ∀ c ∈ w2, isWsChar c = true) : ∀ c ∈ w1 ++ w2, isWsChar c = true := by
  intro c hc
  rcases List.mem_append.mp hc with hc | hc
  · exact h1 c hc
  · exact h2 c hc

theorem ws_spaces (l : Str) (h : ∀ c ∈ l, c = ' ') : ∀ c ∈ l, isWsChar c = true := by
  intro c hc
  rw [h c hc]
  rfl

theorem ws_two_spaces : ∀ c ∈ ([' ', ' '] : Str), isWsChar c = true := by
  intro c hc
  rcases List.mem_cons.mp hc with rfl | hc
  · rfl
  · rcases List.mem_cons.mp hc with rfl | hc
    · rfl
    · exact absurd hc (List.not_mem_nil c)

theorem daysInMonth_le (y : Int) (m : Nat) : daysInMonth y m ≤ 31 := by
  unfold daysInMonth
  split <;> first | (split <;> norm_num) | norm_num

/-- Reduction of `parse_in_timescale` in the UTC arm when the field
loop succeeds and the gregorian construction is valid. -/
theorem parse_in_timescale_utc_ok {content : Str} {fs : EpochFields} {e : Epoch}
    (hfs : parseFieldsGo 0 (splitWs content) {} = .ok fs)
    (hy : fs.y ≠ 0)
    (hfg : fromGregorianUtc fs.y fs.m fs.d fs.hh fs.mm fs.ss fs.ns = some e) :
    parse_in_timescale content .UTC = .ok e fs.flag := by
  unfold parse_in_timescale
  rw [hfs]
  show (if fs.y = 0 then ParseResult.failed .FormatError
        else match fromGregorianUtc fs.y fs.m fs.d fs.hh fs.mm fs.ss fs.ns with
          | some e2 => ParseResult.ok e2 fs.flag
          | none => ParseResult.panicked) = ParseResult.ok e fs.flag
  rw [if_neg hy, hfg]

set_option maxHeartbeats 2000000 in
/-- Round trip of the legacy observation layout: parsing the formatted
text reconstructs the same instant and flag. -/
theorem roundtrip_obs_legacy
    (y : Int) (m d hh mm ss ns : Nat) (fl : EpochFlag) (rev : Nat)
    (hrev : rev < 3)
    (hy1 : 1980 ≤ y) (hy2 : y ≤ 2079)
    (hm1 : 1 ≤ m) (hm2 : m ≤ 12) (hd1 : 1 ≤ d) (hd2 : d ≤ daysInMonth y m)
    (hhh : hh ≤ 23) (hmm : mm ≤ 59) (hss : ss ≤ 59)
    (hns : ns ≤ 999999999) (hns100 : ns % 100 = 0) :
    parse_in_timescale (format ⟨y, m, d, hh, mm, ss, ns, .UTC⟩ (some fl) .ObservationData rev) .UTC
      = .ok ⟨y, m, d, hh, mm, ss, ns, .UTC⟩ fl := by
  obtain ⟨yv, hyv⟩ : ∃ v : Int,
      (if y - 2000 < 0 then y - 2000 + 100 else y - 2000) = v := ⟨_, rfl⟩
  have hyv0 : 0 ≤ yv := by rw [← hyv]; split <;> omega
  have hyv99 : yv ≤ 99 := by rw [← hyv]; split <;> omega
  have hchunks : format ⟨y, m, d, hh, mm, ss, ns, .UTC⟩ (some fl) .ObservationData rev
      = chunksJoin
        [([], padZeroDigits 2 (renderNat yv.toNat)),
         (' ' :: List.replicate (2 - (renderNat m).length) ' ', renderNat m),
         (' ' :: List.replicate (2 - (renderNat d).length) ' ', renderNat d),
         (' ' :: List.replicate (2 - (renderNat hh).length) ' ', renderNat hh),
         (' ' :: List.replicate (2 - (renderNat mm).length) ' ', renderNat mm),
         (' ' :: List.replicate (2 - (renderNat ss).length) ' ',
            renderNat ss ++ '.' :: padZeroDigits 7 (renderNat (ns / 100))),
         ([' ', ' '], flagStr fl)] := by
    simp only [format, formatDecompose, toGregorianUtc, if_pos hrev, hyv,
      padIntZero_of_nonneg hyv0, chunksJoin, padSpaceNat, Option.getD,
      List.append_assoc, List.cons_append, List.nil_append, List.singleton_append,
      List.append_nil]
  have hmap : List.map Prod.snd
        [(([] : Str), padZeroDigits 2 (renderNat yv.toNat)),
         (' ' :: List.replicate (2 - (renderNat m).length) ' ', renderNat m),
         (' ' :: List.replicate (2 - (renderNat d).length) ' ', renderNat d),
         (' ' :: List.replicate (2 - (renderNat hh).length) ' ', renderNat hh),
         (' ' :: List.replicate (2 - (renderNat mm).length) ' ', renderNat mm),
         (' ' :: List.replicate (2 - (renderNat ss).length) ' ',
            renderNat ss ++ '.' :: padZeroDigits 7 (renderNat (ns / 100))),
         ([' ', ' '], flagStr fl)]
      = [padZeroDigits 2 (renderNat yv.toNat), renderNat m, renderNat d, renderNat hh,
         renderNat mm, renderNat ss ++ '.' :: padZeroDigits 7 (renderNat (ns / 100)),
         flagStr fl] := rfl
  have hsplit : splitWs (format ⟨y, m, d, hh, mm, ss, ns, .UTC⟩ (some fl) .ObservationData rev)
      = [padZeroDigits 2 (renderNat yv.toNat), renderNat m, renderNat d, renderNat hh,
         renderNat mm, renderNat ss ++ '.' :: padZeroDigits 7 (renderNat (ns / 100)),
         flagStr fl] := by
    rw [hchunks, ← hmap]
    apply splitWs_chunksJoin
    · intro p hp
      simp only [List.mem_cons, List.not_mem_nil, or_false] at hp
      rcases hp with rfl | rfl | rfl | rfl | rfl | rfl | rfl
      · exact ⟨by intro c hc; exact absurd hc (List.not_mem_nil c),
          (tok_padZero_render 2 yv.toNat).1, (tok_padZero_render 2 yv.toNat).2⟩
      · exact ⟨ws_of_space_cons_replicate _, (tok_render m).1, (tok_render m).2⟩
      · exact ⟨ws_of_space_cons_replicate _, (tok_render d).1, (tok_render d).2⟩
      · exact ⟨ws_of_space_cons_replicate _, (tok_render hh).1, (tok_render hh).2⟩
      · exact ⟨ws_of_space_cons_replicate _, (tok_render mm).1, (tok_render mm).2⟩
      · exact ⟨ws_of_space_cons_replicate _, (tok_secTok ss 7 (ns / 100)).1,
          (tok_secTok ss 7 (ns / 100)).2⟩
      · exact ⟨ws_two_spaces, flagStr_ne_nil fl, flagStr_nonWs fl⟩
    · intro p hp
      simp only [List.tail_cons, List.mem_cons, List.not_mem_nil, or_false] at hp
      rcases hp with rfl | rfl | rfl | rfl | rfl | rfl <;> exact List.cons_ne_nil _ _
  have hdisamb : (if yv < 100 then (if yv < 80 then yv + 2000 else yv + 1900) else yv) = y := by
    rw [← hyv]
    split_ifs <;> omega
  have hy0 : parseI32 (padZeroDigits 2 (renderNat yv.toNat)) = some yv := by
    rw [← padIntZero_of_nonneg hyv0 2]
    exact parseI32_padIntZero hyv0 (by omega) 2
  have hsecTrim : trimAscii (renderNat ss ++ '.' :: padZeroDigits 7 (renderNat (ns / 100)))
      = renderNat ss ++ '.' :: padZeroDigits 7 (renderNat (ns / 100)) :=
    trimAscii_of_nonWs (tok_secTok ss 7 (ns / 100)).2
  have hfrLen : (renderNat (ns / 100)).length ≤ 7 :=
    renderNat_length_le (ns / 100) 7 (by omega) (by norm_num)
  have hsecLen : (renderNat ss ++ '.' :: padZeroDigits 7 (renderNat (ns / 100))).length
      = (renderNat ss).length + 8 := by
    simp only [List.length_append, List.length_cons, padZeroDigits_length hfrLen]
  have hsplitSec := secondsTok_split
    (a := renderNat ss) (b := padZeroDigits 7 (renderNat (ns / 100))) (renderNat_allDigits ss)
  have hssTrim : trimAscii (renderNat ss) = renderNat ss :=
    trimAscii_of_nonWs (tok_render ss).2
  have hfrTrim : trimAscii (padZeroDigits 7 (renderNat (ns / 100)))
      = padZeroDigits 7 (renderNat (ns / 100)) :=
    trimAscii_of_nonWs (tok_padZero_render 7 (ns / 100)).2
  have hns2 : (ns / 100) * 100 % 4294967296 = ns := by
    rw [Nat.div_mul_cancel (Nat.dvd_of_mod_eq_zero hns100)]
    exact Nat.mod_eq_of_lt (by omega)
  have hfields : parseFieldsGo 0
      [padZeroDigits 2 (renderNat yv.toNat), renderNat m, renderNat d, renderNat hh,
       renderNat mm, renderNat ss ++ '.' :: padZeroDigits 7 (renderNat (ns / 100)),
       flagStr fl] {} = .ok ⟨y, m, d, hh, mm, ss, ns, fl⟩ := by
    have hd31 : d ≤ 31 := le_trans hd2 (daysInMonth_le y m)
    rw [parseFieldsGo_cons_ok (applyField_year hy0),
        parseFieldsGo_cons_ok (applyField_month (parseU8_renderNat (by omega))),
        parseFieldsGo_cons_ok (applyField_day (parseU8_renderNat (by omega))),
        parseFieldsGo_cons_ok (applyField_hours (parseU8_renderNat (by omega))),
        parseFieldsGo_cons_ok (applyField_minutes (parseU8_renderNat (by omega))),
        parseFieldsGo_cons_ok (applyField_seconds_dot hsplitSec.1 hsplitSec.2
          (by rw [hssTrim]; exact parseU8_renderNat (by omega))
          (by rw [hfrTrim]; exact parseU32_padZero_renderNat (by omega) 7)),
        parseFieldsGo_cons_ok (applyField_flag
          (by rw [trimAscii_flagStr]; exact flag_roundtrip fl)),
        parseFieldsGo_nil]
    rw [hsecTrim]
    have hlen7 : ¬ ((renderNat ss ++ '.' :: padZeroDigits 7 (renderNat (ns / 100))).length < 7) := by
      rw [hsecLen]
      have := renderNat_ne_nil ss
      omega
    rw [if_neg hlen7, hns2, hdisamb]
  have hfs2 : parseFieldsGo 0
      (splitWs (format ⟨y, m, d, hh, mm, ss, ns, .UTC⟩ (some fl) .ObservationData rev)) {}
      = .ok ⟨y, m, d, hh, mm, ss, ns, fl⟩ := by
    rw [hsplit]
    exact hfields
  exact parse_in_timescale_utc_ok hfs2 (by show y ≠ 0; omega)
    (by unfold fromGregorianUtc
        rw [if_pos ⟨hm1, hm2, hd1, hd2, hhh, hmm, hss, hns⟩])

theorem ws_nil_str : ∀ c ∈ ([] : Str), isWsChar c = true := by
  intro c hc
  exact absurd hc (List.not_mem_nil c)

theorem ws_cons_space {l : Str} (h : ∀ c ∈ l, isWsChar c = true) :
    ∀ c ∈ (' ' :: l : Str), isWsChar c = true := by
  intro c hc
  rcases List.mem_cons.mp hc with rfl | hc
  · rfl
  · exact h c hc

theorem ws_one_space : ∀ c ∈ ([' '] : Str), isWsChar c = true :=
  ws_cons_space ws_nil_str

theorem tok_padNatZero (w n : Nat) :
    padNatZero w n ≠ [] ∧ ∀ c ∈ padNatZero w n, isWsChar c = false :=
  tok_padZero_render w n

theorem trimAscii_padNatZero (w n : Nat) : trimAscii (padNatZero w n) = padNatZero w n :=
  trimAscii_of_nonWs (tok_padNatZero w n).2

theorem dropDot_padNatZero (w n : Nat) :
    (padNatZero w n).dropWhile (fun c => !(c == '.')) = [] :=
  dropWhile_dot_of_digits (allDigits_padZeroDigits (renderNat_allDigits n))

theorem trimAscii_renderNat (n : Nat) : trimAscii (renderNat n) = renderNat n :=
  trimAscii_of_nonWs (tok_render n).2

set_option maxHeartbeats 2000000 in
/-- Round trip of the modern observation layout. -/
theorem roundtrip_obs_modern
    (y : Int) (m d hh mm ss ns : Nat) (fl : EpochFlag) (rev : Nat)
    (hrev : 3 ≤ rev)
    (hy1 : 100 ≤ y) (hy2 : y ≤ 9999)
    (hm1 : 1 ≤ m) (hm2 : m ≤ 12) (hd1 : 1 ≤ d) (hd2 : d ≤ daysInMonth y m)
    (hhh : hh ≤ 23) (hmm : mm ≤ 59) (hss : ss ≤ 59)
    (hns : ns ≤ 999999999) (hns100 : ns % 100 = 0) :
    parse_in_timescale (format ⟨y, m, d, hh, mm, ss, ns, .UTC⟩ (some fl) .ObservationData rev) .UTC
      = .ok ⟨y, m, d, hh, mm, ss, ns, .UTC⟩ fl := by
  have hy0 : (0 : Int) ≤ y := by omega
  have hchunks : format ⟨y, m, d, hh, mm, ss, ns, .UTC⟩ (some fl) .ObservationData rev
      = chunksJoin
        [([], padZeroDigits 4 (renderNat y.toNat)),
         ([' '], padNatZero 2 m),
         ([' '], padNatZero 2 d),
         ([' '], padNatZero 2 hh),
         ([' '], padNatZero 2 mm),
         (' ' :: List.replicate (2 - (renderNat ss).length) ' ',
            renderNat ss ++ '.' :: padZeroDigits 7 (renderNat (ns / 100))),
         ([' ', ' '], flagStr fl)] := by
    simp only [format, formatDecompose, toGregorianUtc, if_neg (by omega : ¬ rev < 3),
      padIntZero_of_nonneg hy0, chunksJoin, padSpaceNat, Option.getD,
      List.append_assoc, List.cons_append, List.nil_append, List.singleton_append,
      List.append_nil]
  have hsplit : splitWs (format ⟨y, m, d, hh, mm, ss, ns, .UTC⟩ (some fl) .ObservationData rev)
      = [padZeroDigits 4 (renderNat y.toNat), padNatZero 2 m, padNatZero 2 d, padNatZero 2 hh,
         padNatZero 2 mm, renderNat ss ++ '.' :: padZeroDigits 7 (renderNat (ns / 100)),
         flagStr fl] := by
    rw [hchunks]
    rw [splitWs_chunksJoin _ ?_ ?_]
    · rfl
    · intro p hp
      simp only [List.mem_cons, List.not_mem_nil, or_false] at hp
      rcases hp with rfl | rfl | rfl | rfl | rfl | rfl | rfl
      · exact ⟨ws_nil_str, (tok_padZero_render 4 y.toNat).1, (tok_padZero_render 4 y.toNat).2⟩
      · exact ⟨ws_one_space, (tok_padNatZero 2 m).1, (tok_padNatZero 2 m).2⟩
      · exact ⟨ws_one_space, (tok_padNatZero 2 d).1, (tok_padNatZero 2 d).2⟩
      · exact ⟨ws_one_space, (tok_padNatZero 2 hh).1, (tok_padNatZero 2 hh).2⟩
      · exact ⟨ws_one_space, (tok_padNatZero 2 mm).1, (tok_padNatZero 2 mm).2⟩
      · exact ⟨ws_of_space_cons_replicate _, (tok_secTok ss 7 (ns / 100)).1,
          (tok_secTok ss 7 (ns / 100)).2⟩
      · exact ⟨ws_two_spaces, flagStr_ne_nil fl, flagStr_nonWs fl⟩
    · intro p hp
      simp only [List.tail_cons, List.mem_cons, List.not_mem_nil, or_false] at hp
      rcases hp with rfl | rfl | rfl | rfl | rfl | rfl <;> exact List.cons_ne_nil _ _
  have hyTok : parseI32 (padZeroDigits 4 (renderNat y.toNat)) = some y := by
    rw [← padIntZero_of_nonneg hy0 4]
    exact parseI32_padIntZero hy0 (by omega) 4
  have hsecTrim : trimAscii (renderNat ss ++ '.' :: padZeroDigits 7 (renderNat (ns / 100)))
      = renderNat ss ++ '.' :: padZeroDigits 7 (renderNat (ns / 100)) :=
    trimAscii_of_nonWs (tok_secTok ss 7 (ns / 100)).2
  have hfrLen : (renderNat (ns / 100)).length ≤ 7 :=
    renderNat_length_le (ns / 100) 7 (by omega) (by norm_num)
  have hsecLen : (renderNat ss ++ '.' :: padZeroDigits 7 (renderNat (ns / 100))).length
      = (renderNat ss).length + 8 := by
    simp only [List.length_append, List.length_cons, padZeroDigits_length hfrLen]
  have hsplitSec := secondsTok_split
    (a := renderNat ss) (b := padZeroDigits 7 (renderNat (ns / 100))) (renderNat_allDigits ss)
  have hns2 : (ns / 100) * 100 % 4294967296 = ns := by
    rw [Nat.div_mul_cancel (Nat.dvd_of_mod_eq_zero hns100)]
    exact Nat.mod_eq_of_lt (by omega)
  have hd31 : d ≤ 31 := le_trans hd2 (daysInMonth_le y m)
  have hfields : parseFieldsGo 0
      [padZeroDigits 4 (renderNat y.toNat), padNatZero 2 m, padNatZero 2 d, padNatZero 2 hh,
       padNatZero 2 mm, renderNat ss ++ '.' :: padZeroDigits 7 (renderNat (ns / 100)),
       flagStr fl] {} = .ok ⟨y, m, d, hh, mm, ss, ns, fl⟩ := by
    rw [parseFieldsGo_cons_ok (applyField_year hyTok),
        parseFieldsGo_cons_ok (applyField_month (parseU8_padNatZero (by omega) 2)),
        parseFieldsGo_cons_ok (applyField_day (parseU8_padNatZero (by omega) 2)),
        parseFieldsGo_cons_ok (applyField_hours (parseU8_padNatZero (by omega) 2)),
        parseFieldsGo_cons_ok (applyField_minutes (parseU8_padNatZero (by omega) 2)),
        parseFieldsGo_cons_ok (applyField_seconds_dot hsplitSec.1 hsplitSec.2
          (by rw [trimAscii_renderNat]; exact parseU8_renderNat (by omega))
          (by rw [trimAscii_of_nonWs (tok_padZero_render 7 (ns / 100)).2]
              exact parseU32_padZero_renderNat (by omega) 7)),
        parseFieldsGo_cons_ok (applyField_flag
          (by rw [trimAscii_flagStr]; exact flag_roundtrip fl)),
        parseFieldsGo_nil]
    rw [hsecTrim]
    have hlen7 : ¬ ((renderNat ss ++ '.' :: padZeroDigits 7 (renderNat (ns / 100))).length < 7) := by
      rw [hsecLen]
      have := renderNat_ne_nil ss
      omega
    rw [if_neg hlen7, hns2, if_neg (by omega : ¬ y < 100)]
  have hfs2 : parseFieldsGo 0
      (splitWs (format ⟨y, m, d, hh, mm, ss, ns, .UTC⟩ (some fl) .ObservationData rev)) {}
      = .ok ⟨y, m, d, hh, mm, ss, ns, fl⟩ := by
    rw [hsplit]
    exact hfields
  exact parse_in_timescale_utc_ok hfs2 (by show y ≠ 0; omega)
    (by unfold fromGregorianUtc
        rw [if_pos ⟨hm1, hm2, hd1, hd2, hhh, hmm, hss, hns⟩])

set_option maxHeartbeats 2000000 in
/-- Round trip of the modern navigation layout (no fraction, no
flag). -/
theorem roundtrip_nav_modern
    (y : Int) (m d hh mm ss : Nat) (fopt : Option EpochFlag) (rev : Nat)
    (hrev : 3 ≤ rev)
    (hy1 : 100 ≤ y) (hy2 : y ≤ 9999)
    (hm1 : 1 ≤ m) (hm2 : m ≤ 12) (hd1 : 1 ≤ d) (hd2 : d ≤ daysInMonth y m)
    (hhh : hh ≤ 23) (hmm : mm ≤ 59) (hss : ss ≤ 59) :
    parse_in_timescale (format ⟨y, m, d, hh, mm, ss, 0, .UTC⟩ fopt .NavigationData rev) .UTC
      = .ok ⟨y, m, d, hh, mm, ss, 0, .UTC⟩ .Ok := by
  have hy0 : (0 : Int) ≤ y := by omega
  have hchunks : format ⟨y, m, d, hh, mm, ss, 0, .UTC⟩ fopt .NavigationData rev
      = chunksJoin
        [([], padZeroDigits 4 (renderNat y.toNat)),
         ([' '], padNatZero 2 m),
         ([' '], padNatZero 2 d),
         ([' '], padNatZero 2 hh),
         ([' '], padNatZero 2 mm),
         ([' '], padNatZero 2 ss)] := by
    simp only [format, formatDecompose, toGregorianUtc, if_neg (by omega : ¬ rev < 3),
      padIntZero_of_nonneg hy0, chunksJoin,
      List.append_assoc, List.cons_append, List.nil_append, List.singleton_append,
      List.append_nil]
  have hsplit : splitWs (format ⟨y, m, d, hh, mm, ss, 0, .UTC⟩ fopt .NavigationData rev)
      = [padZeroDigits 4 (renderNat y.toNat), padNatZero 2 m, padNatZero 2 d, padNatZero 2 hh,
         padNatZero 2 mm, padNatZero 2 ss] := by
    rw [hchunks]
    rw [splitWs_chunksJoin _ ?_ ?_]
    · rfl
    · intro p hp
      simp only [List.mem_cons, List.not_mem_nil, or_false] at hp
      rcases hp with rfl | rfl | rfl | rfl | rfl | rfl
      · exact ⟨ws_nil_str, (tok_padZero_render 4 y.toNat).1, (tok_padZero_render 4 y.toNat).2⟩
      · exact ⟨ws_one_space, (tok_padNatZero 2 m).1, (tok_padNatZero 2 m).2⟩
      · exact ⟨ws_one_space, (tok_padNatZero 2 d).1, (tok_padNatZero 2 d).2⟩
      · exact ⟨ws_one_space, (tok_padNatZero 2 hh).1, (tok_padNatZero 2 hh).2⟩
      · exact ⟨ws_one_space, (tok_padNatZero 2 mm).1, (tok_padNatZero 2 mm).2⟩
      · exact ⟨ws_one_space, (tok_padNatZero 2 ss).1, (tok_padNatZero 2 ss).2⟩
    · intro p hp
      simp only [List.tail_cons, List.mem_cons, List.not_mem_nil, or_false] at hp
      rcases hp with rfl | rfl | rfl | rfl | rfl <;> exact List.cons_ne_nil _ _
  have hyTok : parseI32 (padZeroDigits 4 (renderNat y.toNat)) = some y := by
    rw [← padIntZero_of_nonneg hy0 4]
    exact parseI32_padIntZero hy0 (by omega) 4
  have hd31 : d ≤ 31 := le_trans hd2 (daysInMonth_le y m)
  have hfields : parseFieldsGo 0
      [padZeroDigits 4 (renderNat y.toNat), padNatZero 2 m, padNatZero 2 d, padNatZero 2 hh,
       padNatZero 2 mm, padNatZero 2 ss] {} = .ok ⟨y, m, d, hh, mm, ss, 0, .Ok⟩ := by
    rw [parseFieldsGo_cons_ok (applyField_year hyTok),
        parseFieldsGo_cons_ok (applyField_month (parseU8_padNatZero (by omega) 2)),
        parseFieldsGo_cons_ok (applyField_day (parseU8_padNatZero (by omega) 2)),
        parseFieldsGo_cons_ok (applyField_hours (parseU8_padNatZero (by omega) 2)),
        parseFieldsGo_cons_ok (applyField_minutes (parseU8_padNatZero (by omega) 2)),
        parseFieldsGo_cons_ok (applyField_seconds_nodot (dropDot_padNatZero 2 ss)
          (by rw [trimAscii_padNatZero]; exact parseU8_padNatZero (by omega) 2)),
        parseFieldsGo_nil]
    rw [if_neg (by omega : ¬ y < 100)]
  have hfs2 : parseFieldsGo 0
      (splitWs (format ⟨y, m, d, hh, mm, ss, 0, .UTC⟩ fopt .NavigationData rev)) {}
      = .ok ⟨y, m, d, hh, mm, ss, 0, .Ok⟩ := by
    rw [hsplit]
    exact hfields
  exact parse_in_timescale_utc_ok hfs2 (by show y ≠ 0; omega)
    (by unfold fromGregorianUtc
        rw [if_pos ⟨hm1, hm2, hd1, hd2, hhh, hmm, hss, by show (0 : Nat) ≤ 999999999; omega⟩])

set_option maxHeartbeats 2000000 in
/-- Round trip of the ionosphere-map layout (wide fixed columns, no
fraction, no flag; the revision is ignored by this layout). -/
theorem roundtrip_iono
    (y : Int) (m d hh mm ss : Nat) (fopt : Option EpochFlag) (rev : Nat)
    (hy1 : 100 ≤ y) (hy2 : y ≤ 9999)
    (hm1 : 1 ≤ m) (hm2 : m ≤ 12) (hd1 : 1 ≤ d) (hd2 : d ≤ daysInMonth y m)
    (hhh : hh ≤ 23) (hmm : mm ≤ 59) (hss : ss ≤ 59) :
    parse_in_timescale (format ⟨y, m, d, hh, mm, ss, 0, .UTC⟩ fopt .IonosphereMaps rev) .UTC
      = .ok ⟨y, m, d, hh, mm, ss, 0, .UTC⟩ .Ok := by
  have hy0 : (0 : Int) ≤ y := by omega
  have hchunks : format ⟨y, m, d, hh, mm, ss, 0, .UTC⟩ fopt .IonosphereMaps rev
      = chunksJoin
        [([], padZeroDigits 4 (renderNat y.toNat)),
         (' ' :: ' ' :: ' ' :: List.replicate (2 - (renderNat m).length) ' ', renderNat m),
         (' ' :: ' ' :: ' ' :: ' ' :: List.replicate (2 - (renderNat d).length) ' ', renderNat d),
         (' ' :: ' ' :: ' ' :: ' ' :: List.replicate (2 - (renderNat hh).length) ' ', renderNat hh),
         (' ' :: ' ' :: ' ' :: ' ' :: List.replicate (2 - (renderNat mm).length) ' ', renderNat mm),
         (' ' :: ' ' :: ' ' :: ' ' :: List.replicate (2 - (renderNat ss).length) ' ', renderNat ss)] := by
    simp only [format, formatDecompose, toGregorianUtc,
      padIntZero_of_nonneg hy0, chunksJoin, padSpaceNat,
      List.append_assoc, List.cons_append, List.nil_append, List.singleton_append,
      List.append_nil]
  have hsplit : splitWs (format ⟨y, m, d, hh, mm, ss, 0, .UTC⟩ fopt .IonosphereMaps rev)
      = [padZeroDigits 4 (renderNat y.toNat), renderNat m, renderNat d, renderNat hh,
         renderNat mm, renderNat ss] := by
    rw [hchunks]
    rw [splitWs_chunksJoin _ ?_ ?_]
    · rfl
    · intro p hp
      simp only [List.mem_cons, List.not_mem_nil, or_false] at hp
      rcases hp with rfl | rfl | rfl | rfl | rfl | rfl
      · exact ⟨ws_nil_str, (tok_padZero_render 4 y.toNat).1, (tok_padZero_render 4 y.toNat).2⟩
      · exact ⟨ws_cons_space (ws_cons_space (ws_of_space_cons_replicate _)),
          (tok_render m).1, (tok_render m).2⟩
      · exact ⟨ws_cons_space (ws_cons_space (ws_cons_space (ws_of_space_cons_replicate _))),
          (tok_render d).1, (tok_render d).2⟩
      · exact ⟨ws_cons_space (ws_cons_space (ws_cons_space (ws_of_space_cons_replicate _))),
          (tok_render hh).1, (tok_render hh).2⟩
      · exact ⟨ws_cons_space (ws_cons_space (ws_cons_space (ws_of_space_cons_replicate _))),
          (tok_render mm).1, (tok_render mm).2⟩
      · exact ⟨ws_cons_space (ws_cons_space (ws_cons_space (ws_of_space_cons_replicate _))),
          (tok_render ss).1, (tok_render ss).2⟩
    · intro p hp
      simp only [List.tail_cons, List.mem_cons, List.not_mem_nil, or_false] at hp
      rcases hp with rfl | rfl | rfl | rfl | rfl <;> exact List.cons_ne_nil _ _
  have hyTok : parseI32 (padZeroDigits 4 (renderNat y.toNat)) = some y := by
    rw [← padIntZero_of_nonneg hy0 4]
    exact parseI32_padIntZero hy0 (by omega) 4
  have hd31 : d ≤ 31 := le_trans hd2 (daysInMonth_le y m)
  have hfields : parseFieldsGo 0
      [padZeroDigits 4 (renderNat y.toNat), renderNat m, renderNat d, renderNat hh,
       renderNat mm, renderNat ss] {} = .ok ⟨y, m, d, hh, mm, ss, 0, .Ok⟩ := by
    rw [parseFieldsGo_cons_ok (applyField_year hyTok),
        parseFieldsGo_cons_ok (applyField_month (parseU8_renderNat (by omega))),
        parseFieldsGo_cons_ok (applyField_day (parseU8_renderNat (by omega))),
        parseFieldsGo_cons_ok (applyField_hours (parseU8_renderNat (by omega))),
        parseFieldsGo_cons_ok (applyField_minutes (parseU8_renderNat (by omega))),
        parseFieldsGo_cons_ok (applyField_seconds_nodot
          (dropWhile_dot_of_digits (renderNat_allDigits ss))
          (by rw [trimAscii_renderNat]; exact parseU8_renderNat (by omega))),
        parseFieldsGo_nil]
    rw [if_neg (by omega : ¬ y < 100)]
  have hfs2 : parseFieldsGo 0
      (splitWs (format ⟨y, m, d, hh, mm, ss, 0, .UTC⟩ fopt .IonosphereMaps rev)) {}
      = .ok ⟨y, m, d, hh, mm, ss, 0, .Ok⟩ := by
    rw [hsplit]
    exact hfields
  exact parse_in_timescale_utc_ok hfs2 (by show y ≠ 0; omega)
    (by unfold fromGregorianUtc
        rw [if_pos ⟨hm1, hm2, hd1, hd2, hhh, hmm, hss, by show (0 : Nat) ≤ 999999999; omega⟩])

set_option maxHeartbeats 2000000 in
/-- Round trip of the modern generic layout (whole seconds, no
flag). -/
theorem roundtrip_other_modern
    (y : Int) (m d hh mm ss : Nat) (fopt : Option EpochFlag) (rev : Nat)
    (hrev : 3 ≤ rev)
    (hy1 : 100 ≤ y) (hy2 : y ≤ 9999)
    (hm1 : 1 ≤ m) (hm2 : m ≤ 12) (hd1 : 1 ≤ d) (hd2 : d ≤ daysInMonth y m)
    (hhh : hh ≤ 23) (hmm : mm ≤ 59) (hss : ss ≤ 59) :
    parse_in_timescale (format ⟨y, m, d, hh, mm, ss, 0, .UTC⟩ fopt .Other rev) .UTC
      = .ok ⟨y, m, d, hh, mm, ss, 0, .UTC⟩ .Ok := by
  have hy0 : (0 : Int) ≤ y := by omega
  have hchunks : format ⟨y, m, d, hh, mm, ss, 0, .UTC⟩ fopt .Other rev
      = chunksJoin
        [([], padZeroDigits 4 (renderNat y.toNat)),
         (' ' :: List.replicate (2 - (renderNat m).length) ' ', renderNat m),
         (' ' :: List.replicate (2 - (renderNat d).length) ' ', renderNat d),
         (' ' :: List.replicate (2 - (renderNat hh).length) ' ', renderNat hh),
         (' ' :: List.replicate (2 - (renderNat mm).length) ' ', renderNat mm),
         (' ' :: List.replicate (2 - (renderNat ss).length) ' ', renderNat ss)] := by
    simp only [format, formatDecompose, toGregorianUtc, if_neg (by omega : ¬ rev < 3),
      padIntZero_of_nonneg hy0, chunksJoin, padSpaceNat,
      List.append_assoc, List.cons_append, List.nil_append, List.singleton_append,
      List.append_nil]
  have hsplit : splitWs (format ⟨y, m, d, hh, mm, ss, 0, .UTC⟩ fopt .Other rev)
      = [padZeroDigits 4 (renderNat y.toNat), renderNat m, renderNat d, renderNat hh,
         renderNat mm, renderNat ss] := by
    rw [hchunks]
    rw [splitWs_chunksJoin _ ?_ ?_]
    · rfl
    · intro p hp
      simp only [List.mem_cons, List.not_mem_nil, or_false] at hp
      rcases hp with rfl | rfl | rfl | rfl | rfl | rfl
      · exact ⟨ws_nil_str, (tok_padZero_render 4 y.toNat).1, (tok_padZero_render 4 y.toNat).2⟩
      · exact ⟨ws_of_space_cons_replicate _, (tok_render m).1, (tok_render m).2⟩
      · exact ⟨ws_of_space_cons_replicate _, (tok_render d).1, (tok_render d).2⟩
      · exact ⟨ws_of_space_cons_replicate _, (tok_render hh).1, (tok_render hh).2⟩
      · exact ⟨ws_of_space_cons_replicate _, (tok_render mm).1, (tok_render mm).2⟩
      · exact ⟨ws_of_space_cons_replicate _, (tok_render ss).1, (tok_render ss).2⟩
    · intro p hp
      simp only [List.tail_cons, List.mem_cons, List.not_mem_nil, or_false] at hp
      rcases hp with rfl | rfl | rfl | rfl | rfl <;> exact List.cons_ne_nil _ _
  have hyTok : parseI32 (padZeroDigits 4 (renderNat y.toNat)) = some y := by
    rw [← padIntZero_of_nonneg hy0 4]
    exact parseI32_padIntZero hy0 (by omega) 4
  have hd31 : d ≤ 31 := le_trans hd2 (daysInMonth_le y m)
  have hfields : parseFieldsGo 0
      [padZeroDigits 4 (renderNat y.toNat), renderNat m, renderNat d, renderNat hh,
       renderNat mm, renderNat ss] {} = .ok ⟨y, m, d, hh, mm, ss, 0, .Ok⟩ := by
    rw [parseFieldsGo_cons_ok (applyField_year hyTok),
        parseFieldsGo_cons_ok (applyField_month (parseU8_renderNat (by omega))),
        parseFieldsGo_cons_ok (applyField_day (parseU8_renderNat (by omega))),
        parseFieldsGo_cons_ok (applyField_hours (parseU8_renderNat (by omega))),
        parseFieldsGo_cons_ok (applyField_minutes (parseU8_renderNat (by omega))),
        parseFieldsGo_cons_ok (applyField_seconds_nodot
          (dropWhile_dot_of_digits (renderNat_allDigits ss))
          (by rw [trimAscii_renderNat]; exact parseU8_renderNat (by omega))),
        parseFieldsGo_nil]
    rw [if_neg (by omega : ¬ y < 100)]
  have hfs2 : parseFieldsGo 0
      (splitWs (format ⟨y, m, d, hh, mm, ss, 0, .UTC⟩ fopt .Other rev)) {}
      = .ok ⟨y, m, d, hh, mm, ss, 0, .Ok⟩ := by
    rw [hsplit]
    exact hfields
  exact parse_in_timescale_utc_ok hfs2 (by show y ≠ 0; omega)
    (by unfold fromGregorianUtc
        rw [if_pos ⟨hm1, hm2, hd1, hd2, hhh, hmm, hss, by show (0 : Nat) ≤ 999999999; omega⟩])

/-- C1 (amended): for UTC-interpreted text in the formatter's canonical
layouts, parse-then-format round-trips byte for byte.  The legacy
(revision < 3) observation conjunct covers the 7-field form, with the
flag token present; the modern (revision >= 3) conjuncts cover the four
record kinds, where the fraction-free kinds carry zero nanoseconds and
parsing yields the default flag.  Because parsing reconstructs exactly
the same epoch and flag, formatting that result reproduces the original
text verbatim. -/
theorem c1_roundtrip
    (e : Epoch) (fl : EpochFlag) (fopt : Option EpochFlag) (rev : Nat)
    (hsc : e.scale = .UTC)
    (hm1 : 1 ≤ e.m) (hm2 : e.m ≤ 12) (hd1 : 1 ≤ e.d) (hd2 : e.d ≤ daysInMonth e.y e.m)
    (hhh : e.hh ≤ 23) (hmm : e.mm ≤ 59) (hss : e.ss ≤ 59) (hns : e.ns ≤ 999999999) :
    (rev < 3 → 1980 ≤ e.y → e.y ≤ 2079 → e.ns % 100 = 0 →
      parse_in_timescale (format e (some fl) .ObservationData rev) .UTC = .ok e fl)
    ∧ (3 ≤ rev → 100 ≤ e.y → e.y ≤ 9999 →
      (e.ns % 100 = 0 →
        parse_in_timescale (format e (some fl) .ObservationData rev) .UTC = .ok e fl)
      ∧ (e.ns = 0 →
        parse_in_timescale (format e fopt .NavigationData rev) .UTC = .ok e .Ok
        ∧ parse_in_timescale (format e fopt .IonosphereMaps rev) .UTC = .ok e .Ok
        ∧ parse_in_timescale (format e fopt .Other rev) .UTC = .ok e .Ok)) := by
  obtain ⟨y, m, d, hh, mm, ss, ns, sc⟩ := e
  have hsc2 : sc = .UTC := hsc
  subst hsc2
  refine ⟨fun hrev hy1 hy2 h100 => ?_, fun hrev hy1 hy2 => ⟨fun h100 => ?_, fun h0 => ?_⟩⟩
  · exact roundtrip_obs_legacy y m d hh mm ss ns fl rev hrev hy1 hy2 hm1 hm2 hd1 hd2
      hhh hmm hss hns h100
  · exact roundtrip_obs_modern y m d hh mm ss ns fl rev hrev hy1 hy2 hm1 hm2 hd1 hd2
      hhh hmm hss hns h100
  · have h0n : ns = 0 := h0
    subst h0n
    exact ⟨roundtrip_nav_modern y m d hh mm ss fopt rev hrev hy1 hy2 hm1 hm2 hd1 hd2 hhh hmm hss,
      roundtrip_iono y m d hh mm ss fopt rev hy1 hy2 hm1 hm2 hd1 hd2 hhh hmm hss,
      roundtrip_other_modern y m d hh mm ss fopt rev hrev hy1 hy2 hm1 hm2 hd1 hd2 hhh hmm hss⟩

/-- Witness for C1 at a concrete legacy and a concrete modern
observation instant. -/
theorem c1_roundtrip_witness :
    parse_in_timescale
        (format ⟨2021, 12, 21, 0, 0, 30, 0, .UTC⟩ (some .Ok) .ObservationData 2) .UTC
      = .ok ⟨2021, 12, 21, 0, 0, 30, 0, .UTC⟩ .Ok
    ∧ parse_in_timescale
        (format ⟨2021, 12, 21, 0, 0, 30, 0, .UTC⟩ (some .Ok) .ObservationData 3) .UTC
      = .ok ⟨2021, 12, 21, 0, 0, 30, 0, .UTC⟩ .Ok :=
  ⟨(c1_roundtrip ⟨2021, 12, 21, 0, 0, 30, 0, .UTC⟩ .Ok none 2 (by decide) (by decide)
      (by decide) (by decide) (by decide) (by decide) (by decide) (by decide) (by decide)).1
      (by decide) (by decide) (by decide) (by decide),
   ((c1_roundtrip ⟨2021, 12, 21, 0, 0, 30, 0, .UTC⟩ .Ok none 3 (by decide) (by decide)
      (by decide) (by decide) (by decide) (by decide) (by decide) (by decide) (by decide)).2
      (by decide) (by decide) (by decide)).1 (by decide)⟩

/-- Counterexample to C1 as stated: a valid 6-field legacy observation
text (no flag token) parses successfully, but formatting the result
appends the default flag token, so the original text is not reproduced
byte for byte. -/
theorem c1_counterexample :
    parse_utc ("21 12 21  0  0 30.0000000").data
      = .ok ⟨2021, 12, 21, 0, 0, 30, 0, .UTC⟩ .Ok
    ∧ format ⟨2021, 12, 21, 0, 0, 30, 0, .UTC⟩ none .ObservationData 2
        ≠ ("21 12 21  0  0 30.0000000").data
    ∧ format ⟨2021, 12, 21, 0, 0, 30, 0, .UTC⟩ (some .Ok) .ObservationData 2
        ≠ ("21 12 21  0  0 30.0000000").data := by
  refine ⟨by decide, by decide, by decide⟩

/-- C2: the code, not the claim, is at fault here.  The input
consisting of the single token 0 does not return the structural
FormatError: the year token disambiguates to 2000, the year-zero guard
passes, and `Epoch::from_gregorian_utc` is invoked on the invalid date
(month 0, day 0), whose documented behavior is a panic.  This theorem
evaluates the embedding at the failing input. -/
theorem c2_year_zero_panics :
    parse_in_timescale ("0").data .UTC = .panicked
    ∧ splitWs ("0").data ≠ [] := by
  refine ⟨by decide, by decide⟩

/-- C8: the current-instant accessor never fails observably; it
returns the clock value when the read succeeds and otherwise the
sentinel midnight 1 January 2000 UTC. -/
theorem c8_now_fallback :
    (∀ e, now (some e) = e)
    ∧ now none = midnight2000
    ∧ midnight2000 = ⟨2000, 1, 1, 0, 0, 0, 0, .UTC⟩ :=
  ⟨fun _ => rfl, rfl, rfl⟩

/-- C4: a year token parsing to a signed value below 100 is
disambiguated to 2000 plus the value when below 80 and to 1900 plus
the value when at least 80; values of at least 100 are used unchanged.
In particular the token 79 yields 2079 and the token 80 yields
1980. -/
theorem c4_year_disambiguation :
    (∀ (t : Str) (v : Int), parseI32 t = some v →
      parseFieldsGo 0 [t] {} =
        .ok ⟨if v < 80 then 2000 + v else if v < 100 then 1900 + v else v,
             0, 0, 0, 0, 0, 0, .Ok⟩)
    ∧ parse_utc ("79 1 1 0 0 0").data = .ok ⟨2079, 1, 1, 0, 0, 0, 0, .UTC⟩ .Ok
    ∧ parse_utc ("80 1 1 0 0 0").data = .ok ⟨1980, 1, 1, 0, 0, 0, 0, .UTC⟩ .Ok := by
  refine ⟨fun t v h => ?_, by decide, by decide⟩
  rw [parseFieldsGo_cons_ok (applyField_year h), parseFieldsGo_nil]
  have : (if v < 100 then (if v < 80 then v + 2000 else v + 1900) else v)
      = (if v < 80 then 2000 + v else if v < 100 then 1900 + v else v) := by
    split_ifs <;> omega
  rw [this]

/-- Witness for C4: the year token 79 alone. -/
theorem c4_year_disambiguation_witness :
    parseFieldsGo 0 [['7', '9']] {} = .ok ⟨2079, 0, 0, 0, 0, 0, 0, .Ok⟩ :=
  c4_year_disambiguation.1 ['7', '9'] 79 (by decide)

/-- C3 (amended): the seconds token of field index 5.  With a decimal
point, the fractional digits are multiplied by 100,000,000 when the
trimmed token is shorter than 7 characters and by 100 otherwise, the
product taken by the 32-bit multiplication of the source, i.e. reduced
modulo 2^32; without a decimal point the nanosecond count is zero.
The other five fields are held at a fixed valid leading run of
tokens. -/
theorem c3_seconds_scaling
    (item ip fr : Str) (s f : Nat)
    (hne : item ≠ []) (hnw : ∀ c ∈ item, isWsChar c = false) :
    (item.takeWhile (fun c => !(c == '.')) = ip →
      item.dropWhile (fun c => !(c == '.')) = '.' :: fr →
      parseU8 (trimAscii ip) = some s → parseU32 (trimAscii fr) = some f →
      parseFieldsGo 0
          (splitWs (['2', '0', '2', '0', ' ', '1', ' ', '1', ' ', '0', ' ', '0', ' '] ++ item)) {}
        = .ok ⟨2020, 1, 1, 0, 0, s,
               f * (if (trimAscii item).length < 7 then 100000000 else 100) % 4294967296, .Ok⟩)
    ∧ (item.dropWhile (fun c => !(c == '.')) = [] →
      parseU8 (trimAscii item) = some s →
      parseFieldsGo 0
          (splitWs (['2', '0', '2', '0', ' ', '1', ' ', '1', ' ', '0', ' ', '0', ' '] ++ item)) {}
        = .ok ⟨2020, 1, 1, 0, 0, s, 0, .Ok⟩) := by
  have hjoin : ['2', '0', '2', '0', ' ', '1', ' ', '1', ' ', '0', ' ', '0', ' '] ++ item
      = chunksJoin
        [([], ['2', '0', '2', '0']), ([' '], ['1']), ([' '], ['1']),
         ([' '], ['0']), ([' '], ['0']), ([' '], item)] := by
    simp [chunksJoin]
  have hsplit : splitWs (['2', '0', '2', '0', ' ', '1', ' ', '1', ' ', '0', ' ', '0', ' '] ++ item)
      = [['2', '0', '2', '0'], ['1'], ['1'], ['0'], ['0'], item] := by
    rw [hjoin]
    rw [splitWs_chunksJoin _ ?_ ?_]
    · rfl
    · intro p hp
      simp only [List.mem_cons, List.not_mem_nil, or_false] at hp
      rcases hp with rfl | rfl | rfl | rfl | rfl | rfl
      · exact ⟨ws_nil_str, by decide, by decide⟩
      · exact ⟨ws_one_space, by decide, by decide⟩
      · exact ⟨ws_one_space, by decide, by decide⟩
      · exact ⟨ws_one_space, by decide, by decide⟩
      · exact ⟨ws_one_space, by decide, by decide⟩
      · exact ⟨ws_one_space, hne, hnw⟩
    · intro p hp
      simp only [List.tail_cons, List.mem_cons, List.not_mem_nil, or_false] at hp
      rcases hp with rfl | rfl | rfl | rfl | rfl <;> exact List.cons_ne_nil _ _
  have h0 : applyField {} 0 ['2', '0', '2', '0'] = .ok ⟨2020, 0, 0, 0, 0, 0, 0, .Ok⟩ := rfl
  have h1 : applyField ⟨2020, 0, 0, 0, 0, 0, 0, .Ok⟩ 1 ['1']
      = .ok ⟨2020, 1, 0, 0, 0, 0, 0, .Ok⟩ := rfl
  have h2 : applyField ⟨2020, 1, 0, 0, 0, 0, 0, .Ok⟩ 2 ['1']
      = .ok ⟨2020, 1, 1, 0, 0, 0, 0, .Ok⟩ := rfl
  have h3 : applyField ⟨2020, 1, 1, 0, 0, 0, 0, .Ok⟩ 3 ['0']
      = .ok ⟨2020, 1, 1, 0, 0, 0, 0, .Ok⟩ := rfl
  have h4 : applyField ⟨2020, 1, 1, 0, 0, 0, 0, .Ok⟩ 4 ['0']
      = .ok ⟨2020, 1, 1, 0, 0, 0, 0, .Ok⟩ := rfl
  rw [hsplit]
  constructor
  · intro htw hdw hip hfr
    rw [parseFieldsGo_cons_ok h0, parseFieldsGo_cons_ok h1, parseFieldsGo_cons_ok h2,
        parseFieldsGo_cons_ok h3, parseFieldsGo_cons_ok h4,
        parseFieldsGo_cons_ok (applyField_seconds_dot htw hdw hip hfr),
        parseFieldsGo_nil]
    split_ifs <;> rfl
  · intro hdw hsec
    rw [parseFieldsGo_cons_ok h0, parseFieldsGo_cons_ok h1, parseFieldsGo_cons_ok h2,
        parseFieldsGo_cons_ok h3, parseFieldsGo_cons_ok h4,
        parseFieldsGo_cons_ok (applyField_seconds_nodot hdw hsec),
        parseFieldsGo_nil]

/-- Counterexample to C3 as stated: for the short token 0.50 the
mathematical product 50 * 100,000,000 = 5,000,000,000 exceeds the u32
range, so the source's 32-bit multiplication wraps and the parsed
instant carries 705,032,704 nanoseconds, not 5,000,000,000. -/
theorem c3_counterexample :
    parse_utc ("2020 1 1 0 0 0.50").data
      = .ok ⟨2020, 1, 1, 0, 0, 0, 705032704, .UTC⟩ .Ok
    ∧ (705032704 : Nat) ≠ 50 * 100000000 := by
  refine ⟨by decide, by decide⟩

/-- Witness for C3: a long (observation-convention) token and a short
(navigation-convention) token. -/
theorem c3_seconds_scaling_witness :
    parseFieldsGo 0
        (splitWs (['2', '0', '2', '0', ' ', '1', ' ', '1', ' ', '0', ' ', '0', ' ']
          ++ ['3', '9', '.', '1', '2', '3', '4', '5', '6', '7'])) {}
      = .ok ⟨2020, 1, 1, 0, 0, 39, 123456700, .Ok⟩
    ∧ parseFieldsGo 0
        (splitWs (['2', '0', '2', '0', ' ', '1', ' ', '1', ' ', '0', ' ', '0', ' ']
          ++ ['0', '.', '1'])) {}
      = .ok ⟨2020, 1, 1, 0, 0, 0, 100000000, .Ok⟩ :=
  ⟨(c3_seconds_scaling ['3', '9', '.', '1', '2', '3', '4', '5', '6', '7']
      ['3', '9'] ['1', '2', '3', '4', '5', '6', '7'] 39 1234567
      (by decide) (by decide)).1 (by decide) (by decide) (by decide) (by decide),
   (c3_seconds_scaling ['0', '.', '1'] ['0'] ['1'] 0 1
      (by decide) (by decide)).1 (by decide) (by decide) (by decide) (by decide)⟩

theorem applyField_seconds_nanoerr {fs : EpochFields} {item ip fr : Str} {s : Nat}
    (htw : item.takeWhile (fun c => !(c == '.')) = ip)
    (hdw : item.dropWhile (fun c => !(c == '.')) = '.' :: fr)
    (hip : parseU8 (trimAscii ip) = some s)
    (hfr : parseU32 (trimAscii fr) = none) :
    applyField fs 5 item = .error (.NanosecondsField item) := by
  simp only [applyField, htw, hdw, hip, hfr]

/-- Reduction of `parse_in_timescale` when the field loop fails. -/
theorem parse_in_timescale_fields_err {content : Str} {ts : TimeScale} {er : ParsingError}
    (h : parseFieldsGo 0 (splitWs content) {} = .error er) :
    parse_in_timescale content ts = .failed er := by
  unfold parse_in_timescale
  rw [h]

/-- C10 (amended): a seconds token containing a decimal point whose
integer part parses as an unsigned byte but whose fractional part is
empty or not an unsigned integer makes the parser fail with the
NanosecondsField error carrying the entire original token. -/
theorem c10_nanos_error_whole_token
    (item ip fr : Str) (s : Nat) (ts : TimeScale)
    (hne : item ≠ []) (hnw : ∀ c ∈ item, isWsChar c = false)
    (htw : item.takeWhile (fun c => !(c == '.')) = ip)
    (hdw : item.dropWhile (fun c => !(c == '.')) = '.' :: fr)
    (hip : parseU8 (trimAscii ip) = some s)
    (hfr : parseU32 (trimAscii fr) = none) :
    parse_in_timescale (['2', '0', '2', '0', ' ', '1', ' ', '1', ' ', '0', ' ', '0', ' '] ++ item) ts
      = .failed (.NanosecondsField item) := by
  have hjoin : ['2', '0', '2', '0', ' ', '1', ' ', '1', ' ', '0', ' ', '0', ' '] ++ item
      = chunksJoin
        [([], ['2', '0', '2', '0']), ([' '], ['1']), ([' '], ['1']),
         ([' '], ['0']), ([' '], ['0']), ([' '], item)] := by
    simp [chunksJoin]
  have hsplit : splitWs (['2', '0', '2', '0', ' ', '1', ' ', '1', ' ', '0', ' ', '0', ' '] ++ item)
      = [['2', '0', '2', '0'], ['1'], ['1'], ['0'], ['0'], item] := by
    rw [hjoin]
    rw [splitWs_chunksJoin _ ?_ ?_]
    · rfl
    · intro p hp
      simp only [List.mem_cons, List.not_mem_nil, or_false] at hp
      rcases hp with rfl | rfl | rfl | rfl | rfl | rfl
      · exact ⟨ws_nil_str, by decide, by decide⟩
      · exact ⟨ws_one_space, by decide, by decide⟩
      · exact ⟨ws_one_space, by decide, by decide⟩
      · exact ⟨ws_one_space, by decide, by decide⟩
      · exact ⟨ws_one_space, by decide, by decide⟩
      · exact ⟨ws_one_space, hne, hnw⟩
    · intro p hp
      simp only [List.tail_cons, List.mem_cons, List.not_mem_nil, or_false] at hp
      rcases hp with rfl | rfl | rfl | rfl | rfl <;> exact List.cons_ne_nil _ _
  have h0 : applyField {} 0 ['2', '0', '2', '0'] = .ok ⟨2020, 0, 0, 0, 0, 0, 0, .Ok⟩ := rfl
  have h1 : applyField ⟨2020, 0, 0, 0, 0, 0, 0, .Ok⟩ 1 ['1']
      = .ok ⟨2020, 1, 0, 0, 0, 0, 0, .Ok⟩ := rfl
  have h2 : applyField ⟨2020, 1, 0, 0, 0, 0, 0, .Ok⟩ 2 ['1']
      = .ok ⟨2020, 1, 1, 0, 0, 0, 0, .Ok⟩ := rfl
  have h3 : applyField ⟨2020, 1, 1, 0, 0, 0, 0, .Ok⟩ 3 ['0']
      = .ok ⟨2020, 1, 1, 0, 0, 0, 0, .Ok⟩ := rfl
  have h4 : applyField ⟨2020, 1, 1, 0, 0, 0, 0, .Ok⟩ 4 ['0']
      = .ok ⟨2020, 1, 1, 0, 0, 0, 0, .Ok⟩ := rfl
  apply parse_in_timescale_fields_err
  rw [hsplit]
  rw [parseFieldsGo_cons_ok h0, parseFieldsGo_cons_ok h1, parseFieldsGo_cons_ok h2,
      parseFieldsGo_cons_ok h3, parseFieldsGo_cons_ok h4,
      parseFieldsGo_cons_err (applyField_seconds_nanoerr htw hdw hip hfr)]

/-- Witness for C10: the token 30. (empty fraction). -/
theorem c10_nanos_error_whole_token_witness :
    parse_in_timescale
        (['2', '0', '2', '0', ' ', '1', ' ', '1', ' ', '0', ' ', '0', ' '] ++ ['3', '0', '.']) .UTC
      = .failed (.NanosecondsField ['3', '0', '.']) :=
  c10_nanos_error_whole_token ['3', '0', '.'] ['3', '0'] [] 30 .UTC
    (by decide) (by decide) (by decide) (by decide) (by decide) (by decide)

/-- Counterexample to C10 as stated: the token x. contains a decimal
point and its fractional part is empty, yet the parser reports the
SecondsField error (the integer part fails first), not
NanosecondsField. -/
theorem c10_counterexample :
    parse_utc ("2020 1 1 0 0 x.").data = .failed (.SecondsField ['x', '.'])
    ∧ parse_utc ("2020 1 1 0 0 x.").data ≠ .failed (.NanosecondsField ['x', '.']) := by
  refine ⟨by decide, by decide⟩

theorem applyField_preserves_y {fs : EpochFields} {idx : Nat} {item : Str} {fs2 : EpochFields}
    (h : applyField fs idx item = .ok fs2) (hidx : idx ≠ 0) : fs2.y = fs.y := by
  rcases idx with _ | _ | _ | _ | _ | _ | _ | n
  · exact absurd rfl hidx
  · simp only [applyField] at h
    split at h
    · simp at h
    · injection h with h2
      subst h2
      rfl
  · simp only [applyField] at h
    split at h
    · simp at h
    · injection h with h2
      subst h2
      rfl
  · simp only [applyField] at h
    split at h
    · simp at h
    · injection h with h2
      subst h2
      rfl
  · simp only [applyField] at h
    split at h
    · simp at h
    · injection h with h2
      subst h2
      rfl
  · simp only [applyField] at h
    split at h
    · split at h
      · simp at h
      · injection h with h2
        subst h2
        rfl
    · split at h
      · simp at h
      · split at h
        · simp at h
        · injection h with h2
          subst h2
          rfl
  · simp only [applyField] at h
    split at h
    · simp at h
    · injection h with h2
      subst h2
      rfl
  · have hr : applyField fs (n + 7) item = .ok fs := rfl
    rw [hr] at h
    injection h with h2
    subst h2
    rfl

theorem applyField_error_ne_format {fs : EpochFields} {idx : Nat} {item : Str} {er : ParsingError}
    (h : applyField fs idx item = .error er) : er ≠ .FormatError := by
  rcases idx with _ | _ | _ | _ | _ | _ | _ | n
  · simp only [applyField] at h
    split at h
    · injection h with h2
      subst h2
      simp
    · simp at h
  · simp only [applyField] at h
    split at h
    · injection h with h2
      subst h2
      simp
    · simp at h
  · simp only [applyField] at h
    split at h
    · injection h with h2
      subst h2
      simp
    · simp at h
  · simp only [applyField] at h
    split at h
    · injection h with h2
      subst h2
      simp
    · simp at h
  · simp only [applyField] at h
    split at h
    · injection h with h2
      subst h2
      simp
    · simp at h
  · simp only [applyField] at h
    split at h
    · split at h
      · injection h with h2
        subst h2
        simp
      · simp at h
    · split at h
      · injection h with h2
        subst h2
        simp
      · split at h
        · injection h with h2
          subst h2
          simp
        · simp at h
  · simp only [applyField] at h
    split at h
    · injection h with h2
      subst h2
      simp
    · simp at h
  · have hr : applyField fs (n + 7) item = .ok fs := rfl
    rw [hr] at h
    simp at h

theorem parseFieldsGo_y_of_pos :
    ∀ (toks : List Str) (idx : Nat) (fs fs2 : EpochFields), 1 ≤ idx →
      parseFieldsGo idx toks fs = .ok fs2 → fs2.y = fs.y := by
  intro toks
  induction toks with
  | nil =>
    intro idx fs fs2 _ h
    rw [parseFieldsGo_nil] at h
    injection h with h2
    subst h2
    rfl
  | cons item rest ih =>
    intro idx fs fs2 hidx h
    cases ha : applyField fs idx item with
    | error er =>
      rw [parseFieldsGo_cons_err ha] at h
      simp at h
    | ok fsm =>
      rw [parseFieldsGo_cons_ok ha] at h
      rw [ih (idx + 1) fsm fs2 (by omega) h]
      exact applyField_preserves_y ha (by omega)

theorem parseFieldsGo_error_ne_format :
    ∀ (toks : List Str) (idx : Nat) (fs : EpochFields) (er : ParsingError),
      parseFieldsGo idx toks fs = .error er → er ≠ .FormatError := by
  intro toks
  induction toks with
  | nil =>
    intro idx fs er h
    rw [parseFieldsGo_nil] at h
    simp at h
  | cons item rest ih =>
    intro idx fs er h
    cases ha : applyField fs idx item with
    | error er2 =>
      rw [parseFieldsGo_cons_err ha] at h
      injection h with h2
      subst h2
      exact applyField_error_ne_format ha
    | ok fsm =>
      rw [parseFieldsGo_cons_ok ha] at h
      exact ih (idx + 1) fsm er h

/-- The parsed year field is zero exactly when either no token was
present at all or the first token parses as the integer -2000. -/
theorem parseFieldsGo_zero_y {toks : List Str} {fs2 : EpochFields}
    (h : parseFieldsGo 0 toks {} = .ok fs2) :
    (fs2.y = 0 ↔ toks = [] ∨ ∃ t rest, toks = t :: rest ∧ parseI32 t = some (-2000)) := by
  cases toks with
  | nil =>
    rw [parseFieldsGo_nil] at h
    injection h with h2
    subst h2
    simp
  | cons t rest =>
    cases hy : parseI32 t with
    | none =>
      rw [parseFieldsGo_cons_err (by unfold applyField; rw [hy])] at h
      simp at h
    | some v =>
      rw [parseFieldsGo_cons_ok (applyField_year hy)] at h
      have hfy := parseFieldsGo_y_of_pos rest 1 _ fs2 (by omega) h
      rw [hfy]
      show (if v < 100 then (if v < 80 then v + 2000 else v + 1900) else v) = 0 ↔ _
      constructor
      · intro hz
        refine Or.inr ⟨t, rest, rfl, ?_⟩
        rw [hy]
        congr 1
        split_ifs at hz <;> omega
      · rintro (hnil | ⟨t2, rest2, heq, hparse⟩)
        · simp at hnil
        · injection heq with ht2 hrest2
          subst ht2
          rw [hy] at hparse
          injection hparse with hv
          subst hv
          norm_num

set_option maxHeartbeats 1000000 in
/-- C9 (amended): `parse_in_timescale` returns the structural
FormatError exactly when the field loop succeeds with a zero year,
which happens exactly when the input has no tokens at all or its first
token parses as the signed integer -2000 (the one value whose
disambiguation, -2000 + 2000, lands on year zero). -/
theorem c9_format_error_characterization (content : Str) (ts : TimeScale) :
    parse_in_timescale content ts = .failed .FormatError ↔
      ((∃ fs, parseFieldsGo 0 (splitWs content) {} = .ok fs) ∧
       (splitWs content = [] ∨
        ∃ t rest, splitWs content = t :: rest ∧ parseI32 t = some (-2000))) := by
  cases hp : parseFieldsGo 0 (splitWs content) {} with
  | error er =>
    have hne := parseFieldsGo_error_ne_format _ _ _ _ hp
    rw [parse_in_timescale_fields_err hp]
    constructor
    · intro h
      injection h with h2
      exact absurd h2 hne
    · rintro ⟨⟨fs, hfs⟩, _⟩
      simp at hfs
  | ok fs =>
    have hchar := parseFieldsGo_zero_y hp
    have hred : parse_in_timescale content ts =
        (match ts with
         | .UTC =>
           if fs.y = 0 then .failed .FormatError
           else
             match fromGregorianUtc fs.y fs.m fs.d fs.hh fs.mm fs.ss fs.ns with
             | some e => .ok e fs.flag
             | none => .panicked
         | _ =>
           if fs.y = 0 then .failed .FormatError
           else
             match hifitimeFromStr (civilString fs.y fs.m fs.d fs.hh fs.mm fs.ss fs.ns ts) with
             | some e => .ok e fs.flag
             | none => .failed .EpochError) := by
      unfold parse_in_timescale
      rw [hp]
    rw [hred]
    have hgoal : ∀ r : ParseResult,
        (r = .failed .FormatError ↔ fs.y = 0) →
        (r = .failed .FormatError ↔
          ((∃ fs2, (Except.ok fs : Except ParsingError EpochFields) = .ok fs2) ∧
           (splitWs content = [] ∨
            ∃ t rest, splitWs content = t :: rest ∧ parseI32 t = some (-2000)))) := by
      intro r hr
      rw [hr, hchar]
      constructor
      · intro h
        exact ⟨⟨fs, rfl⟩, h⟩
      · rintro ⟨_, h⟩
        exact h
    apply hgoal
    by_cases hy : fs.y = 0
    · cases ts <;> simp [hy]
    · cases ts with
      | UTC =>
        cases hfg : fromGregorianUtc fs.y fs.m fs.d fs.hh fs.mm fs.ss fs.ns <;> simp [hy, hfg]
      | GPST =>
        cases hhft : hifitimeFromStr (civilString fs.y fs.m fs.d fs.hh fs.mm fs.ss fs.ns .GPST) <;>
          simp [hy, hhft]
      | GST =>
        cases hhft : hifitimeFromStr (civilString fs.y fs.m fs.d fs.hh fs.mm fs.ss fs.ns .GST) <;>
          simp [hy, hhft]
      | BDT =>
        cases hhft : hifitimeFromStr (civilString fs.y fs.m fs.d fs.hh fs.mm fs.ss fs.ns .BDT) <;>
          simp [hy, hhft]
      | TAI =>
        cases hhft : hifitimeFromStr (civilString fs.y fs.m fs.d fs.hh fs.mm fs.ss fs.ns .TAI) <;>
          simp [hy, hhft]

/-- Counterexample to C9 as stated: the input -2000 1 1 0 0 0 has six
tokens, its first token parses as an integer, and yet the parser
returns the structural FormatError. -/
theorem c9_counterexample :
    parse_in_timescale ("-2000 1 1 0 0 0").data .UTC = .failed .FormatError
    ∧ splitWs ("-2000 1 1 0 0 0").data ≠ []
    ∧ parseI32 ['-', '2', '0', '0', '0'] = some (-2000) := by
  refine ⟨by decide, by decide, by decide⟩

/-- The fixed offset-from-UTC constant per time scale, as the spec's
table formulates it: 37 seconds for GPST, 19 for GST and BDT, zero for
everything else including UTC. -/
def utcOffsetSeconds : TimeScale → Nat
  | .GPST => 37
  | .GST => 19
  | .BDT => 19
  | _ => 0

theorem epochAddSeconds_zero {e : Epoch} (hhh : e.hh ≤ 23) (hmm : e.mm ≤ 59)
    (hss : e.ss ≤ 59) : epochAddSeconds 0 e = e := by
  obtain ⟨y, m, d, hh, mm, ss, ns, sc⟩ := e
  simp only [epochAddSeconds, Nat.add_zero]
  rw [Nat.div_eq_of_lt (show ss < 60 by exact Nat.lt_succ_of_le hss)]
  simp only [Nat.add_zero]
  rw [Nat.div_eq_of_lt (show mm < 60 by exact Nat.lt_succ_of_le hmm)]
  simp only [Nat.add_zero]
  rw [Nat.div_eq_of_lt (show hh < 24 by exact Nat.lt_succ_of_le hhh)]
  simp only [addDays]
  rw [Nat.mod_eq_of_lt (show hh < 24 by exact Nat.lt_succ_of_le hhh),
      Nat.mod_eq_of_lt (show mm < 60 by exact Nat.lt_succ_of_le hmm),
      Nat.mod_eq_of_lt (show ss < 60 by exact Nat.lt_succ_of_le hss)]

/-- C6: the civil decomposition taken by `format` is the decomposition
of the instant shifted by the fixed per-scale offset-from-UTC constant:
37 seconds for GPST, 19 for GST and BDT, zero for every other scale,
UTC included. -/
theorem c6_format_offset (e : Epoch)
    (hhh : e.hh ≤ 23) (hmm : e.mm ≤ 59) (hss : e.ss ≤ 59) :
    formatDecompose e = toGregorianUtc (epochAddSeconds (utcOffsetSeconds e.scale) e) := by
  obtain ⟨y, m, d, hh, mm, ss, ns, sc⟩ := e
  cases sc with
  | UTC =>
    show toGregorianUtc _ = toGregorianUtc (epochAddSeconds 0 _)
    rw [epochAddSeconds_zero hhh hmm hss]
  | GPST => rfl
  | GST => rfl
  | BDT => rfl
  | TAI =>
    show toGregorianUtc _ = toGregorianUtc (epochAddSeconds 0 _)
    rw [epochAddSeconds_zero hhh hmm hss]

/-- Witness for C6: a GPST instant and a UTC instant. -/
theorem c6_format_offset_witness :
    formatDecompose ⟨2020, 1, 1, 23, 59, 45, 0, .GPST⟩
      = toGregorianUtc (epochAddSeconds (utcOffsetSeconds .GPST) ⟨2020, 1, 1, 23, 59, 45, 0, .GPST⟩)
    ∧ formatDecompose ⟨2020, 1, 1, 0, 0, 0, 0, .UTC⟩
      = toGregorianUtc (epochAddSeconds (utcOffsetSeconds .UTC) ⟨2020, 1, 1, 0, 0, 0, 0, .UTC⟩) :=
  ⟨c6_format_offset ⟨2020, 1, 1, 23, 59, 45, 0, .GPST⟩ (by decide) (by decide) (by decide),
   c6_format_offset ⟨2020, 1, 1, 0, 0, 0, 0, .UTC⟩ (by decide) (by decide) (by decide)⟩

/-- The era-correction rule as the spec words it: subtract 2000 from
the 4-digit year and add 100 when the difference is negative. -/
def eraCorrectedYY (y : Int) : Int :=
  if y - 2000 < 0 then y - 2000 + 100 else y - 2000

/-- C7: wherever a 2-digit year is emitted (ObservationData,
NavigationData and generic kinds below revision 3), the year field of
the output is the era-corrected year; the 4-digit layouts (revision
at least 3, and ionosphere maps at any revision) emit the civil year
unchanged. -/
theorem c7_year_field (e : Epoch) (fl : Option EpochFlag) (rev : Nat)
    (hsc : e.scale = .UTC) :
    (rev < 3 →
      (∃ r, format e fl .ObservationData rev = padIntZero 2 (eraCorrectedYY e.y) ++ r)
      ∧ (∃ r, format e fl .NavigationData rev = padIntZero 2 (eraCorrectedYY e.y) ++ r)
      ∧ (∃ r, format e fl .Other rev = padIntZero 2 (eraCorrectedYY e.y) ++ r))
    ∧ (3 ≤ rev →
      (∃ r, format e fl .ObservationData rev = padIntZero 4 e.y ++ r)
      ∧ (∃ r, format e fl .NavigationData rev = padIntZero 4 e.y ++ r)
      ∧ (∃ r, format e fl .Other rev = padIntZero 4 e.y ++ r))
    ∧ (∃ r, format e fl .IonosphereMaps rev = padIntZero 4 e.y ++ r) := by
  obtain ⟨y, m, d, hh, mm, ss, ns, sc⟩ := e
  have hsc2 : sc = .UTC := hsc
  subst hsc2
  refine ⟨fun hrev => ⟨⟨[' '] ++ padSpaceNat 2 m ++ [' '] ++ padSpaceNat 2 d ++ [' ']
            ++ padSpaceNat 2 hh ++ [' '] ++ padSpaceNat 2 mm ++ [' '] ++ padSpaceNat 2 ss
            ++ ['.'] ++ padZeroDigits 7 (renderNat (ns / 100)) ++ [' ', ' ']
            ++ flagStr (fl.getD .Ok), ?_⟩,
          ⟨[' '] ++ padSpaceNat 2 m ++ [' '] ++ padSpaceNat 2 d ++ [' ']
            ++ padSpaceNat 2 hh ++ [' '] ++ padSpaceNat 2 mm ++ [' '] ++ padSpaceNat 2 ss
            ++ ['.'] ++ padSpaceNat 1 (ns / 100000000), ?_⟩,
          ⟨[' '] ++ padSpaceNat 2 m ++ [' '] ++ padSpaceNat 2 d ++ [' ']
            ++ padSpaceNat 2 hh ++ [' '] ++ padSpaceNat 2 mm ++ [' '] ++ padSpaceNat 2 ss, ?_⟩⟩,
        fun hrev => ⟨⟨[' '] ++ padNatZero 2 m ++ [' '] ++ padNatZero 2 d ++ [' ']
            ++ padNatZero 2 hh ++ [' '] ++ padNatZero 2 mm ++ [' '] ++ padSpaceNat 2 ss
            ++ ['.'] ++ padZeroDigits 7 (renderNat (ns / 100)) ++ [' ', ' ']
            ++ flagStr (fl.getD .Ok), ?_⟩,
          ⟨[' '] ++ padNatZero 2 m ++ [' '] ++ padNatZero 2 d ++ [' ']
            ++ padNatZero 2 hh ++ [' '] ++ padNatZero 2 mm ++ [' '] ++ padNatZero 2 ss, ?_⟩,
          ⟨[' '] ++ padSpaceNat 2 m ++ [' '] ++ padSpaceNat 2 d ++ [' ']
            ++ padSpaceNat 2 hh ++ [' '] ++ padSpaceNat 2 mm ++ [' '] ++ padSpaceNat 2 ss, ?_⟩⟩,
        ⟨[' ', ' ', ' '] ++ padSpaceNat 2 m ++ [' ', ' ', ' ', ' '] ++ padSpaceNat 2 d
            ++ [' ', ' ', ' ', ' '] ++ padSpaceNat 2 hh ++ [' ', ' ', ' ', ' ']
            ++ padSpaceNat 2 mm ++ [' ', ' ', ' ', ' '] ++ padSpaceNat 2 ss, ?_⟩⟩
  · simp only [format, formatDecompose, toGregorianUtc, eraCorrectedYY, if_pos hrev,
      List.append_assoc]
  · simp only [format, formatDecompose, toGregorianUtc, eraCorrectedYY, if_pos hrev,
      List.append_assoc]
  · simp only [format, formatDecompose, toGregorianUtc, eraCorrectedYY, if_pos hrev,
      List.append_assoc]
  · simp only [format, formatDecompose, toGregorianUtc,
      if_neg (show ¬ rev < 3 by omega), List.append_assoc]
  · simp only [format, formatDecompose, toGregorianUtc,
      if_neg (show ¬ rev < 3 by omega), List.append_assoc]
  · simp only [format, formatDecompose, toGregorianUtc,
      if_neg (show ¬ rev < 3 by omega), List.append_assoc]
  · simp only [format, formatDecompose, toGregorianUtc, List.append_assoc]

/-- Witness for C7: the year 1999 in a legacy observation layout and
the year 2021 in a modern one. -/
theorem c7_year_field_witness :
    (∃ r, format ⟨1999, 12, 31, 23, 59, 59, 0, .UTC⟩ none .ObservationData 2
      = padIntZero 2 (eraCorrectedYY 1999) ++ r)
    ∧ (∃ r, format ⟨2021, 1, 1, 0, 0, 0, 0, .UTC⟩ none .NavigationData 3
      = padIntZero 4 2021 ++ r) :=
  ⟨((c7_year_field ⟨1999, 12, 31, 23, 59, 59, 0, .UTC⟩ none 2 rfl).1 (by decide)).1,
   ((c7_year_field ⟨2021, 1, 1, 0, 0, 0, 0, .UTC⟩ none 3 rfl).2.1 (by decide)).2.1⟩

theorem splitOnChar_cons_eq (sep a : Char) (rest : Str) :
    splitOnChar sep (a :: rest) =
      match splitOnChar sep rest with
      | [] => [[]]
      | t :: ts => if a = sep then [] :: t :: ts else (a :: t) :: ts := rfl

theorem splitOnChar_ne_nil (sep : Char) : ∀ s : Str, splitOnChar sep s ≠ [] := by
  intro s
  induction s with
  | nil => simp [splitOnChar]
  | cons a rest ih =>
    rw [splitOnChar_cons_eq]
    cases h : splitOnChar sep rest with
    | nil => simp
    | cons t ts =>
      by_cases ha : a = sep <;> simp [ha]

theorem splitOnChar_no_sep {sep : Char} :
    ∀ {s : Str}, (∀ c ∈ s, ¬ c = sep) → splitOnChar sep s = [s] := by
  intro s
  induction s with
  | nil => intro _; rfl
  | cons a rest ih =>
    intro h
    rw [splitOnChar_cons_eq, ih (fun c hc => h c (by simp [hc]))]
    simp [h a (by simp)]

theorem splitOnChar_append {sep : Char} :
    ∀ {a : Str} (b : Str), (∀ c ∈ a, ¬ c = sep) →
      splitOnChar sep (a ++ sep :: b) = a :: splitOnChar sep b := by
  intro a
  induction a with
  | nil =>
    intro b _
    show splitOnChar sep (sep :: b) = [] :: splitOnChar sep b
    rw [splitOnChar_cons_eq]
    cases h : splitOnChar sep b with
    | nil => exact absurd h (splitOnChar_ne_nil sep b)
    | cons t ts => simp
  | cons a0 arest ih =>
    intro b h
    show splitOnChar sep (a0 :: (arest ++ sep :: b)) = (a0 :: arest) :: splitOnChar sep b
    rw [splitOnChar_cons_eq, ih b (fun c hc => h c (by simp [hc]))]
    simp [h a0 (by simp)]

theorem noChar_of_digits {s : Str} (h : ∀ c ∈ s, isDigitCh c = true) (ch : Char)
    (hch : ch.toNat < 48 ∨ 57 < ch.toNat) : ∀ c ∈ s, ¬ c = ch := by
  intro c hc he
  subst he
  have := isDigitCh_toNat_range (h c hc)
  omega

theorem noChar_append {a b : Str} {ch : Char} (ha : ∀ c ∈ a, ¬ c = ch)
    (hb : ∀ c ∈ b, ¬ c = ch) : ∀ c ∈ a ++ b, ¬ c = ch := by
  intro c hc
  rcases List.mem_append.mp hc with hc | hc
  · exact ha c hc
  · exact hb c hc

theorem noChar_cons {b : Str} {c0 ch : Char} (h0 : ¬ c0 = ch)
    (hb : ∀ c ∈ b, ¬ c = ch) : ∀ c ∈ c0 :: b, ¬ c = ch := by
  intro c hc
  rcases List.mem_cons.mp hc with rfl | hc
  · exact h0
  · exact hb c hc

theorem parseScaleName_scaleName (ts : TimeScale) :
    parseScaleName (scaleName ts) = some ts := by
  cases ts <;> rfl

theorem scaleName_no_space (ts : TimeScale) : ∀ c ∈ scaleName ts, ¬ c = ' ' := by
  cases ts <;> decide

set_option maxHeartbeats 2000000 in
/-- The model of `Epoch::from_str` recovers the components written by
`civilString`, with the sub-second field read back as the stored
nanosecond count divided by 100,000,000, and tags the result with the
named scale. -/
theorem hifitimeFromStr_civilString
    (y : Int) (m d hh mm ss ns : Nat) (ts : TimeScale)
    (hy1 : 1 ≤ y) (hy2 : y ≤ 9999) (hns : ns ≤ 999999999)
    (hval : isGregorianValid y m d hh mm ss (ns / 100000000)) :
    hifitimeFromStr (civilString y m d hh mm ss ns ts)
      = some ⟨y, m, d, hh, mm, ss, ns / 100000000, ts⟩ := by
  have hy0 : (0 : Int) ≤ y := by omega
  have hp4 : padIntZero 4 y = padZeroDigits 4 (renderNat y.toNat) := padIntZero_of_nonneg hy0 4
  have hp4d : ∀ c ∈ padIntZero 4 y, isDigitCh c = true := by
    rw [hp4]
    exact allDigits_padZeroDigits (renderNat_allDigits _)
  have hnz : ∀ w k, ∀ c ∈ padNatZero w k, isDigitCh c = true :=
    fun w k => allDigits_padZeroDigits (renderNat_allDigits k)
  have hp9 : ∀ c ∈ padZeroDigits 9 (renderNat (ns / 100000000)), isDigitCh c = true :=
    allDigits_padZeroDigits (renderNat_allDigits _)
  have hsecs : ∀ c ∈ padNatZero 2 ss ++ '.' :: padZeroDigits 9 (renderNat (ns / 100000000)),
      ¬ c = ' ' :=
    noChar_append (noChar_of_digits (hnz 2 ss) ' ' (by decide))
      (noChar_cons (by decide) (noChar_of_digits hp9 ' ' (by decide)))
  have htpart : ∀ c ∈ padNatZero 2 hh ++ ':' :: (padNatZero 2 mm ++ ':'
      :: (padNatZero 2 ss ++ '.' :: padZeroDigits 9 (renderNat (ns / 100000000)))), ¬ c = ' ' :=
    noChar_append (noChar_of_digits (hnz 2 hh) ' ' (by decide))
      (noChar_cons (by decide)
        (noChar_append (noChar_of_digits (hnz 2 mm) ' ' (by decide))
          (noChar_cons (by decide) hsecs)))
  have hdpart : ∀ c ∈ padIntZero 4 y ++ '-' :: (padNatZero 2 m ++ '-' :: padNatZero 2 d),
      ¬ c = ' ' :=
    noChar_append (noChar_of_digits hp4d ' ' (by decide))
      (noChar_cons (by decide)
        (noChar_append (noChar_of_digits (hnz 2 m) ' ' (by decide))
          (noChar_cons (by decide) (noChar_of_digits (hnz 2 d) ' ' (by decide)))))
  have hdt : ∀ c ∈ (padIntZero 4 y ++ '-' :: (padNatZero 2 m ++ '-' :: padNatZero 2 d))
      ++ 'T' :: (padNatZero 2 hh ++ ':' :: (padNatZero 2 mm ++ ':'
        :: (padNatZero 2 ss ++ '.' :: padZeroDigits 9 (renderNat (ns / 100000000))))), ¬ c = ' ' :=
    noChar_append hdpart (noChar_cons (by decide) htpart)
  have hshape : civilString y m d hh mm ss ns ts
      = ((padIntZero 4 y ++ '-' :: (padNatZero 2 m ++ '-' :: padNatZero 2 d))
          ++ 'T' :: (padNatZero 2 hh ++ ':' :: (padNatZero 2 mm ++ ':'
            :: (padNatZero 2 ss ++ '.' :: padZeroDigits 9 (renderNat (ns / 100000000))))))
        ++ ' ' :: scaleName ts := by
    simp only [civilString, List.append_assoc, List.cons_append, List.nil_append,
      List.singleton_append]
  have h1 : splitOnChar ' ' (civilString y m d hh mm ss ns ts)
      = [(padIntZero 4 y ++ '-' :: (padNatZero 2 m ++ '-' :: padNatZero 2 d))
          ++ 'T' :: (padNatZero 2 hh ++ ':' :: (padNatZero 2 mm ++ ':'
            :: (padNatZero 2 ss ++ '.' :: padZeroDigits 9 (renderNat (ns / 100000000))))),
         scaleName ts] := by
    rw [hshape, splitOnChar_append _ hdt, splitOnChar_no_sep (scaleName_no_space ts)]
  have h2 : splitOnChar 'T'
      ((padIntZero 4 y ++ '-' :: (padNatZero 2 m ++ '-' :: padNatZero 2 d))
        ++ 'T' :: (padNatZero 2 hh ++ ':' :: (padNatZero 2 mm ++ ':'
          :: (padNatZero 2 ss ++ '.' :: padZeroDigits 9 (renderNat (ns / 100000000))))))
      = [padIntZero 4 y ++ '-' :: (padNatZero 2 m ++ '-' :: padNatZero 2 d),
         padNatZero 2 hh ++ ':' :: (padNatZero 2 mm ++ ':'
           :: (padNatZero 2 ss ++ '.' :: padZeroDigits 9 (renderNat (ns / 100000000))))] := by
    rw [splitOnChar_append _
          (noChar_append (noChar_of_digits hp4d 'T' (by decide))
            (noChar_cons (by decide)
              (noChar_append (noChar_of_digits (hnz 2 m) 'T' (by decide))
                (noChar_cons (by decide) (noChar_of_digits (hnz 2 d) 'T' (by decide)))))),
        splitOnChar_no_sep
          (noChar_append (noChar_of_digits (hnz 2 hh) 'T' (by decide))
            (noChar_cons (by decide)
              (noChar_append (noChar_of_digits (hnz 2 mm) 'T' (by decide))
                (noChar_cons (by decide)
                  (noChar_append (noChar_of_digits (hnz 2 ss) 'T' (by decide))
                    (noChar_cons (by decide) (noChar_of_digits hp9 'T' (by decide))))))))]
  have h3 : splitOnChar '-' (padIntZero 4 y ++ '-' :: (padNatZero 2 m ++ '-' :: padNatZero 2 d))
      = [padIntZero 4 y, padNatZero 2 m, padNatZero 2 d] := by
    rw [splitOnChar_append _ (noChar_of_digits hp4d '-' (by decide)),
        splitOnChar_append _ (noChar_of_digits (hnz 2 m) '-' (by decide)),
        splitOnChar_no_sep (noChar_of_digits (hnz 2 d) '-' (by decide))]
  have h4 : splitOnChar ':' (padNatZero 2 hh ++ ':' :: (padNatZero 2 mm ++ ':'
        :: (padNatZero 2 ss ++ '.' :: padZeroDigits 9 (renderNat (ns / 100000000)))))
      = [padNatZero 2 hh, padNatZero 2 mm,
         padNatZero 2 ss ++ '.' :: padZeroDigits 9 (renderNat (ns / 100000000))] := by
    rw [splitOnChar_append _ (noChar_of_digits (hnz 2 hh) ':' (by decide)),
        splitOnChar_append _ (noChar_of_digits (hnz 2 mm) ':' (by decide)),
        splitOnChar_no_sep
          (noChar_append (noChar_of_digits (hnz 2 ss) ':' (by decide))
            (noChar_cons (by decide) (noChar_of_digits hp9 ':' (by decide))))]
  have h5 : splitOnChar '.'
      (padNatZero 2 ss ++ '.' :: padZeroDigits 9 (renderNat (ns / 100000000)))
      = [padNatZero 2 ss, padZeroDigits 9 (renderNat (ns / 100000000))] := by
    rw [splitOnChar_append _ (noChar_of_digits (hnz 2 ss) '.' (by decide)),
        splitOnChar_no_sep (noChar_of_digits hp9 '.' (by decide))]
  have hlen9 : (padZeroDigits 9 (renderNat (ns / 100000000))).length = 9 :=
    padZeroDigits_length (le_trans (renderNat_length_le _ 1 (by omega) (by norm_num)) (by norm_num))
  have hyint : parseI32 (padIntZero 4 y) = some y :=
    parseI32_padIntZero hy0 (by omega) 4
  unfold hifitimeFromStr
  rw [h1]
  simp only [parseScaleName_scaleName, h2, h3, h4, h5, hlen9, hyint,
    parseNatDigits_padNatZero, parseNatDigits_padZero_renderNat, if_true]
  rw [if_pos hval]

/-- Reduction of `parse_in_timescale` in the non-UTC arm when the
field loop succeeds and the calendar-string re-parse succeeds. -/
theorem parse_in_timescale_nonutc_ok {content : Str} {ts : TimeScale} {fs : EpochFields}
    {e : Epoch} (hts : ts ≠ .UTC)
    (hfs : parseFieldsGo 0 (splitWs content) {} = .ok fs)
    (hy : fs.y ≠ 0)
    (hh : hifitimeFromStr (civilString fs.y fs.m fs.d fs.hh fs.mm fs.ss fs.ns ts) = some e) :
    parse_in_timescale content ts = .ok e fs.flag := by
  unfold parse_in_timescale
  rw [hfs]
  cases ts with
  | UTC => exact absurd rfl hts
  | GPST =>
    show (if fs.y = 0 then ParseResult.failed .FormatError
          else match hifitimeFromStr (civilString fs.y fs.m fs.d fs.hh fs.mm fs.ss fs.ns .GPST) with
            | some e2 => ParseResult.ok e2 fs.flag
            | none => ParseResult.failed .EpochError) = ParseResult.ok e fs.flag
    rw [if_neg hy, hh]
  | GST =>
    show (if fs.y = 0 then ParseResult.failed .FormatError
          else match hifitimeFromStr (civilString fs.y fs.m fs.d fs.hh fs.mm fs.ss fs.ns .GST) with
            | some e2 => ParseResult.ok e2 fs.flag
            | none => ParseResult.failed .EpochError) = ParseResult.ok e fs.flag
    rw [if_neg hy, hh]
  | BDT =>
    show (if fs.y = 0 then ParseResult.failed .FormatError
          else match hifitimeFromStr (civilString fs.y fs.m fs.d fs.hh fs.mm fs.ss fs.ns .BDT) with
            | some e2 => ParseResult.ok e2 fs.flag
            | none => ParseResult.failed .EpochError) = ParseResult.ok e fs.flag
    rw [if_neg hy, hh]
  | TAI =>
    show (if fs.y = 0 then ParseResult.failed .FormatError
          else match hifitimeFromStr (civilString fs.y fs.m fs.d fs.hh fs.mm fs.ss fs.ns .TAI) with
            | some e2 => ParseResult.ok e2 fs.flag
            | none => ParseResult.failed .EpochError) = ParseResult.ok e fs.flag
    rw [if_neg hy, hh]

/-- C5 (amended): for a non-UTC target scale the parser renders the six
components into the calendar string whose nine-digit nanosecond field
carries the stored nanosecond count divided by 100,000,000 (not by 10),
re-parses it through the scale's constructor, and tags the result with
the target scale; the reconstructed instant therefore carries
`ns / 100,000,000` nanoseconds. -/
theorem c5_nonutc_construction (content : Str) (ts : TimeScale) (fs : EpochFields)
    (hts : ts ≠ .UTC)
    (hfs : parseFieldsGo 0 (splitWs content) {} = .ok fs)
    (hy1 : 1 ≤ fs.y) (hy2 : fs.y ≤ 9999) (hns : fs.ns ≤ 999999999)
    (hval : isGregorianValid fs.y fs.m fs.d fs.hh fs.mm fs.ss (fs.ns / 100000000)) :
    parse_in_timescale content ts
      = .ok ⟨fs.y, fs.m, fs.d, fs.hh, fs.mm, fs.ss, fs.ns / 100000000, ts⟩ fs.flag := by
  exact parse_in_timescale_nonutc_ok hts hfs (by omega)
    (hifitimeFromStr_civilString fs.y fs.m fs.d fs.hh fs.mm fs.ss fs.ns ts hy1 hy2 hns hval)

/-- Witness for C5 at a concrete GPST input. -/
theorem c5_nonutc_construction_witness :
    parse_in_timescale ("2020 1 1 0 0 8.7654321").data .GPST
      = .ok ⟨2020, 1, 1, 0, 0, 8, 7, .GPST⟩ .Ok :=
  c5_nonutc_construction ("2020 1 1 0 0 8.7654321").data .GPST
    ⟨2020, 1, 1, 0, 0, 8, 765432100, .Ok⟩
    (by decide) rfl (by decide) (by decide) (by decide) (by decide)

/-- Counterexample to C5 as stated: with 765,432,100 stored nanosecond
ticks the claim predicts a nanosecond field of 765,432,100 / 10 =
76,543,210 (text 076543210); the code divides by 100,000,000 and
writes 000000007, so the re-parsed GPST instant carries 7 nanoseconds,
not 76,543,210. -/
theorem c5_counterexample :
    civilString 2020 1 1 0 0 8 765432100 .GPST
      = ("2020-01-01T00:00:08.000000007 GPST").data
    ∧ civilString 2020 1 1 0 0 8 765432100 .GPST
      ≠ ("2020-01-01T00:00:08.076543210 GPST").data
    ∧ parse_in_timescale ("2020 1 1 0 0 8.7654321").data .GPST
      = .ok ⟨2020, 1, 1, 0, 0, 8, 7, .GPST⟩ .Ok
    ∧ (7 : Nat) ≠ 765432100 / 10 := by
  refine ⟨by decide, by decide, by decide, by decide⟩

end Rinex
